import Mathlib

set_option maxRecDepth 1000000

/-!
Verification of the `iso_file` ISO 9660 image writer/reader against its
natural-language specification.  The definitions below are a shallow
embedding of the Rust sources (`src/lib.rs`, `src/core.rs`, `src/types.rs`,
`src/error.rs`): machine integers are `Nat` with explicit `% 2^w` at the
points where the source casts (`as u8`, `as u32`, ...), byte strings are
`List Nat`, Rust `String` identifiers are `List Char` (the staged names pass
the a-character filter, so they are ASCII and UTF-8 byte length equals
character count), and every panic site (`expect`, out-of-bounds index,
`assert!`, subtraction underflow) is an explicit `Except` error.
-/

/- ## Little-endian / big-endian byte encodings (src/types.rs, `LsbMsb<T>`) -/

/-- Little-endian bytes of a `u32` value (the in-memory layout of a `u32`
field of a `repr(C, packed(1))` struct on a little-endian host). -/
def le4 (x : Nat) : List Nat :=
  [x % 256, x / 256 % 256, x / 65536 % 256, x / 16777216 % 256]

/-- Little-endian bytes of a `u16` value. -/
def le2 (x : Nat) : List Nat :=
  [x % 256, x / 256 % 256]

/-- `u32::to_be` on a little-endian host: byte-swap of a 32-bit value. -/
def bswap32 (x : Nat) : Nat :=
  x % 256 * 16777216 + x / 256 % 256 * 65536 + x / 65536 % 256 * 256 + x / 16777216 % 256

/-- `u16::to_be` on a little-endian host: byte-swap of a 16-bit value. -/
def bswap16 (x : Nat) : Nat :=
  x % 256 * 256 + x / 256 % 256

/- ## Date-times (src/types.rs) -/

/-- A UTC timestamp as the embedding of `chrono::DateTime<Utc>`: the fields
consumed by `IsoDateTime::try_from` (`year`, `month`, `day`, `hour`,
`minute`, `second`; the UTC offset is always 0 seconds). -/
structure Ts where
  year : Int
  month : Nat
  day : Nat
  hour : Nat
  minute : Nat
  second : Nat
deriving DecidableEq, Repr

/-- The 7-byte ISO short date-time record (src/types.rs:162-172,
`IsoDateTime`). -/
structure IsoDT where
  year : Nat
  month : Nat
  day : Nat
  hour : Nat
  minute : Nat
  second : Nat
  gmtOffset : Nat
deriving DecidableEq, Repr

/-- The user-visible error kinds of src/error.rs (`IsoFileError`). -/
inductive IsoErrKind where
  | InvalidDate
  | InvalidTime
  | FileNotFound
  | EntryCurrentDirectory
  | EntryParentDirectory
  | EntryDirectory
deriving DecidableEq, Repr

/-- `(value.year() - 1900) as u8` (src/types.rs:205): the Rust `as u8` cast
truncates the `i32` to its low byte, i.e. reduces it modulo 256 in
two's-complement; on `Int` this is `(y - 1900) % 256` with a non-negative
result. -/
def yearByte (y : Int) : Nat :=
  ((y - 1900) % 256).toNat

/-- `IsoDateTime::try_from(&DateTime<Utc>)` body (src/types.rs:197-214):
each component is cast with `as u8`; the UTC offset is 0 so `gmt_offset`
is 0.  Note the function is total: it never returns an error. -/
def isoDateTimeOfTs (ts : Ts) : IsoDT :=
  { year := yearByte ts.year
    month := ts.month % 256
    day := ts.day % 256
    hour := ts.hour % 256
    minute := ts.minute % 256
    second := ts.second % 256
    gmtOffset := 0 }

/-- `IsoDateTime::try_from` as the `Result`-returning conversion the source
declares: the body is `Ok(IsoDateTime { ... })`, so the error case is
unreachable. -/
def isoDateTimeTryFrom (ts : Ts) : Except IsoErrKind IsoDT :=
  .ok (isoDateTimeOfTs ts)

/- ## Directory entries (src/core.rs, `IsoEntry`, `IsoDirectoryEntry`) -/

/-- `IsoEntry` (src/core.rs:631-637); names are ASCII character lists. -/
inductive IsoEntry where
  | cur
  | par
  | dir (name : List Char)
  | file (name : List Char)
deriving DecidableEq, Repr

/-- `IsoEntry::is_file` (src/core.rs:649-656). -/
def isoEntryIsFile : IsoEntry → Bool
  | .file _ => true
  | _ => false

/-- `IsoEntry::name` (src/core.rs:658-667): `"\0"` for the current
directory, `"\u{1}"` for the parent, the bare name for a directory and
`name + ";1"` for a file. -/
def entryName : IsoEntry → List Char
  | .cur => [Char.ofNat 0]
  | .par => [Char.ofNat 1]
  | .dir n => n
  | .file n => n ++ [';', '1']

/-- `str::as_bytes` for the ASCII identifiers the writer produces. -/
def nameBytes (n : List Char) : List Nat :=
  n.map Char.toNat

/-- The mutable fields of `IsoDirectoryHeader` (src/core.rs:409-422) that
the planner reads and writes.  `length`, `idLen`, `flags` are `u8` values,
`loc` and `dataLen` the `u32` value stored in the `LsbMsb<u32>` pair,
`volseq` the `u16` value stored in the `LsbMsb<u16>` pair. -/
structure DirRecord where
  length : Nat
  loc : Nat
  dataLen : Nat
  date : IsoDT
  flags : Nat
  volseq : Nat
  idLen : Nat
deriving DecidableEq, Repr

/-- `IsoDirectoryEntry` (src/core.rs:466-471). -/
structure DirEntry where
  entry : IsoEntry
  record : DirRecord
  isOdd : Bool
deriving DecidableEq, Repr

/-- `IsoDirectoryEntry::new` (src/core.rs:474-505).  The record length is
computed in `u8` arithmetic: `let real_length = 33 + id_len as u8;` and
`let length = (real_length + 1) & !1;`, hence the `% 256` reductions; the
date conversion's `expect` never fires because `IsoDateTime::try_from` is
total.  Note `volume_seq_number: LsbMsb::new_u16(256)` (src/core.rs:500). -/
def entryNew (dataOffset dataLength : Nat) (ts : Ts) (e : IsoEntry) : DirEntry :=
  let idLen := (nameBytes (entryName e)).length
  let realLength := (33 + idLen % 256) % 256
  let length := (realLength + 1) % 256 &&& 254
  { entry := e
    isOdd := realLength != length
    record :=
      { length := length
        loc := dataOffset % 4294967296
        dataLen := dataLength % 4294967296
        date := isoDateTimeOfTs ts
        flags := if isoEntryIsFile e then 0 else 2
        volseq := 256
        idLen := idLen % 256 } }

/-- Serialization of the 33-byte `IsoDirectoryHeader` as written by
`IsoDirectoryEntry::write` (src/core.rs:511-530): the packed struct is
dumped field by field; each `LsbMsb` field stores the value followed by its
byte-swap (`LsbMsb::new_u32` / `new_u16`, src/types.rs:18-34). -/
def headerBytes (e : DirEntry) : List Nat :=
  [e.record.length, 0]
    ++ le4 e.record.loc ++ le4 (bswap32 e.record.loc)
    ++ le4 e.record.dataLen ++ le4 (bswap32 e.record.dataLen)
    ++ [e.record.date.year, e.record.date.month, e.record.date.day,
        e.record.date.hour, e.record.date.minute, e.record.date.second,
        e.record.date.gmtOffset]
    ++ [e.record.flags, 0, 0]
    ++ le2 e.record.volseq ++ le2 (bswap16 e.record.volseq)
    ++ [e.record.idLen]

/-- Full on-wire bytes of one directory record: 33-byte header, identifier
bytes, one pad byte iff `is_odd` (src/core.rs:511-530). -/
def recordBytes (e : DirEntry) : List Nat :=
  headerBytes e ++ nameBytes (entryName e.entry) ++ (if e.isOdd then [0] else [])

/-- The byte count returned by `IsoDirectoryEntry::write`
(src/core.rs:529): header size + identifier bytes + optional pad. -/
def actualWriteLen (e : DirEntry) : Nat :=
  33 + (nameBytes (entryName e.entry)).length + (if e.isOdd then 1 else 0)

/- ## File staging (src/lib.rs, `append_file`, `FileEntry`) -/

/-- A staged file (src/lib.rs:108-113, `FileEntry`): the path is the list
of normalized components of an absolute path (the Rust `PathBuf` holds a
leading `RootDir` component which we leave implicit), the content is a
byte slice, the timestamp a UTC instant. -/
structure FileEnt where
  path : List (List Char)
  content : List Nat
  ts : Ts
deriving DecidableEq, Repr

/-- A raw `append_file` call: path string, content bytes, timestamp. -/
structure RawFile where
  path : String
  content : List Nat
  ts : Ts
deriving DecidableEq, Repr

/-- The a-character predicate of `append_file` (src/lib.rs:430-436): keep
`A`-`Z`, `0`-`9`, `_` and the listed punctuation. -/
def isAChar (c : Char) : Bool :=
  let n := c.toNat
  (65 ≤ n && n ≤ 90) || (48 ≤ n && n ≤ 57) || n == 95 ||
    [33, 34, 37, 38, 39, 40, 41, 42, 43, 44, 45, 46, 47,
     58, 59, 60, 61, 62, 63].contains n

/-- Split a character list at `'/'`, dropping empty pieces: the `Normal`
components `PathBuf::components` yields for an absolute path (the leading
`RootDir` is implicit in our path representation, repeated separators
collapse, and `.` components are normalized away, which the caller
filters). -/
def splitSlashGo : List Char → List Char → List (List Char)
  | [], acc => if acc.isEmpty then [] else [acc.reverse]
  | c :: rest, acc =>
    if c = '/' then
      if acc.isEmpty then splitSlashGo rest [] else acc.reverse :: splitSlashGo rest []
    else splitSlashGo rest (c :: acc)

/-- `append_file`'s path normalization (src/lib.rs:427-451): uppercase,
keep only a-characters, split into components, truncate each component to
222 characters.  (Rust `to_uppercase` and Lean `Char.toUpper` agree on
ASCII, and the a-character filter leaves only ASCII.) -/
def pathOfString (s : String) : List (List Char) :=
  let filtered := (s.data.map Char.toUpper).filter isAChar
  ((splitSlashGo filtered []).filter (· != ['.'])).map (·.take 222)

/-- `append_file` (src/lib.rs:427-457): normalize the path and stage the
borrowed content and timestamp. -/
def stage (r : RawFile) : FileEnt :=
  { path := pathOfString r.path, content := r.content, ts := r.ts }

/- ## Pass 1: structure (src/lib.rs, `build_dirs` / `build_sectors`) -/

/-- `SectorProps` (src/lib.rs:115-119). -/
structure SectorProps where
  groupNo : Nat
  depth : Nat
deriving DecidableEq, Repr

/-- One directory sector with its properties. -/
abbrev DirSector := List DirEntry × SectorProps

/-- `<[u8]>::chunks(2048)` with explicit fuel (one chunk consumes at least
one element, so `l.length` steps suffice). -/
def chunksGo : Nat → List Nat → List (List Nat)
  | 0, _ => []
  | _ + 1, [] => []
  | fuel + 1, l => l.take 2048 :: chunksGo fuel (l.drop 2048)

/-- `content.chunks(LOGICAL_BLOCK_SIZE)` (src/lib.rs:170): the 2048-byte
slices of a byte list; empty content yields no chunks. -/
def chunksOf (l : List Nat) : List (List Nat) :=
  chunksGo l.length l

/-- The accumulator of `build_dirs` (src/lib.rs:121-210): the sector being
filled, its running size, the finished sectors, and the global file-sector
list (`files_sectors`). -/
structure BDState where
  sector : List DirEntry
  size : Nat
  sectors : List DirSector
  chunks : List (List Nat)
deriving Repr

/-- The record-append step shared by both loops of `build_dirs`
(src/lib.rs:160-168 and 195-203): add the record's stored length to the
running size; if that exceeds 2048 finish the current sector (with the
current `(group_no, depth)`) and start a new one holding just this record,
else append the record to the current sector. -/
def bdPush (g d : Nat) (fd : DirEntry) (st : BDState) : BDState :=
  if 2048 < st.size + fd.record.length then
    { st with sectors := st.sectors ++ [(st.sector, ⟨g, d⟩)],
              size := fd.record.length, sector := [fd] }
  else
    { st with size := st.size + fd.record.length, sector := st.sector ++ [fd] }

/-- The files loop of `build_dirs` (src/lib.rs:142-173): for each staged
entry whose path has exactly two `Path` components (root + name, i.e. one
name in our representation) emit a `File` record whose provisional LBA is
the current `files_sectors.len()`, append it with the overflow rule, then
append the content's 2048-byte chunks to `files_sectors`. -/
def bdFiles (g d : Nat) : List FileEnt → BDState → BDState
  | [], st => st
  | e :: rest, st =>
    if e.path.length = 1 then
      bdFiles g d rest
        { bdPush g d (entryNew st.chunks.length e.content.length e.ts
            (.file (e.path.headD []))) st
          with chunks := st.chunks ++ chunksOf e.content }
    else
      bdFiles g d rest st

/-- The folders loop of `build_dirs` (src/lib.rs:176-205): for each staged
entry whose path has more than two `Path` components emit a `Directory`
record for its first name, deduplicating by name; directory records use
`Utc::now()` as timestamp and provisional LBA and length 0. -/
def bdFolders (now : Ts) (g d : Nat) :
    List FileEnt → List (List Char) → BDState → BDState × List (List Char)
  | [], folders, st => (st, folders)
  | e :: rest, folders, st =>
    if 1 < e.path.length then
      if folders.any (· == e.path.headD []) then
        bdFolders now g d rest folders st
      else
        bdFolders now g d rest (folders ++ [e.path.headD []])
          (bdPush g d (entryNew 0 0 now (.dir (e.path.headD []))) st)
    else
      bdFolders now g d rest folders st

/-- `build_dirs` (src/lib.rs:121-210): start the sector with the `.` and
`..` records (timestamps `Utc::now()`), run the files loop then the
folders loop, and push the final sector.  Returns the emitted sectors, the
discovered folder names and the updated `files_sectors`. -/
def buildDirs (now : Ts) (fileEntries : List FileEnt) (filesSectors : List (List Nat))
    (g d : Nat) : List DirSector × List (List Char) × List (List Nat) :=
  let cur := entryNew 0 0 now .cur
  let par := entryNew 0 0 now .par
  let st0 : BDState :=
    { sector := [cur, par], size := cur.record.length + par.record.length,
      sectors := [], chunks := filesSectors }
  let st1 := bdFiles g d fileEntries st0
  let (st2, folders) := bdFolders now g d fileEntries [] st1
  (st2.sectors ++ [(st2.sector, ⟨g, d⟩)], folders, st2.chunks)

/-- The filter/strip step of `build_sectors` (src/lib.rs:222-241): keep the
staged files whose path starts with the base and strip the base prefix
(for the root base nothing is stripped). -/
def stripFilter (allFiles : List FileEnt) (base : List (List Char)) : List FileEnt :=
  allFiles.filterMap fun t =>
    if base.isPrefixOf t.path then
      some { t with path := t.path.drop base.length }
    else none

/-- The global accumulator of `build_sectors` (src/lib.rs:212-260): the
directory-sector list, the file-sector list and the group counter, all
passed by mutable reference in the source. -/
structure BSState where
  dirs : List DirSector
  chunks : List (List Nat)
  groupNo : Nat
deriving Repr

/-- `build_sectors` (src/lib.rs:212-260) with explicit recursion fuel: one
unit of fuel per directory level.  Each recursive call extends the base by
one discovered folder name; folders are only discovered from paths at
least two components longer than the base, so `maxPathLen + 1` fuel always
suffices (see `buildSectorsTop`). -/
def buildSectorsGo (now : Ts) (allFiles : List FileEnt) :
    Nat → List (List Char) → Nat → BSState → BSState
  | 0, _, _, st => st
  | fuel + 1, base, depth, st =>
    (buildDirs now (stripFilter allFiles base) st.chunks st.groupNo depth).2.1.foldl
      (fun acc folder => buildSectorsGo now allFiles fuel (base ++ [folder]) (depth + 1) acc)
      { dirs := st.dirs ++ (buildDirs now (stripFilter allFiles base) st.chunks
          st.groupNo depth).1,
        chunks := (buildDirs now (stripFilter allFiles base) st.chunks st.groupNo depth).2.2,
        groupNo := st.groupNo + 1 }

/-- Maximum staged path length, used to bound the recursion depth. -/
def maxPathLen (files : List FileEnt) : Nat :=
  files.foldl (fun m f => max m f.path.length) 0

/-- The `close()` call of `build_sectors` (src/lib.rs:465-472): root base,
depth 0, empty accumulators. -/
def buildSectorsTop (now : Ts) (files : List FileEnt) : BSState :=
  buildSectorsGo now files (maxPathLen files + 1) [] 0 ⟨[], [], 0⟩

/- ## Pass 2: location assignment (src/lib.rs, `set_locations`) -/

/-- The panic sites of the writer, surfaced as explicit errors:
`countStackOOB` is the out-of-bounds index into the fixed
`[0usize; 128]` `count_stack` array (src/lib.rs:343,373),
`invalidBlock` the `expect("invalid block number")` of `Groups::get`
(src/lib.rs:299), `emptyDepthStack` the `expect("empty depth stack")` of
`ParentDirectoryStack::get` (src/lib.rs:330), `sectorOverflow` the
`size -= entry.write()` underflow in `close` (src/lib.rs:559),
`tableTooLarge` the `assert!` on the path-table buffers
(src/lib.rs:533,545), and `emptyPathGroups` the `&source[0]` index of
`new_l_table` on an empty slice (src/core.rs:798). -/
inductive IsoPanic where
  | countStackOOB
  | invalidBlock
  | emptyDepthStack
  | sectorOverflow
  | tableTooLarge
  | emptyPathGroups
deriving DecidableEq, Repr

/-- `GroupValues` (src/lib.rs:262-277). -/
structure GroupValues where
  index : Nat
  count : Nat
  depth : Nat
deriving DecidableEq, Repr

/-- `HashMap::entry(..).or_insert(GroupValues::new(index, depth)).count += 1`
(src/lib.rs:285-290) on an association list keyed by group number: the
first occurrence fixes `index` and `depth`, every occurrence bumps
`count`. -/
def bumpGroup (g idx d : Nat) : List (Nat × GroupValues) → List (Nat × GroupValues)
  | [] => [(g, ⟨idx, 1, d⟩)]
  | (k, v) :: rest =>
    if k = g then (k, { v with count := v.count + 1 }) :: rest
    else (k, v) :: bumpGroup g idx d rest

/-- The enumeration loop of `Groups::new` (src/lib.rs:285-290). -/
def collectGroups : List DirSector → Nat → List (Nat × GroupValues) → List (Nat × GroupValues)
  | [], _, acc => acc
  | (_, p) :: rest, idx, acc => collectGroups rest (idx + 1) (bumpGroup p.groupNo idx p.depth acc)

/-- Insertion into a list sorted by ascending `index`. -/
def insertByIndex (gv : GroupValues) : List GroupValues → List GroupValues
  | [] => [gv]
  | h :: t => if gv.index ≤ h.index then gv :: h :: t else h :: insertByIndex gv t

/-- `Groups::new` (src/lib.rs:282-296): collect per-group values, then
`sort_by_key(|t| t.index)` (insertion sort; the first-sector indices are
pairwise distinct so the order is unique). -/
def groupsNew (items : List DirSector) : List GroupValues :=
  ((collectGroups items 0 []).map (·.2)).foldr insertByIndex []

/-- `Groups::get` (src/lib.rs:298-300): positional index with
`expect("invalid block number")`. -/
def groupsGet (groups : List GroupValues) (i : Nat) : Except IsoPanic GroupValues :=
  match groups.get? i with
  | some g => .ok g
  | none => .error .invalidBlock

/-- `ParentDirectoryStack::set` (src/lib.rs:316-324): the front of the list
is the front of the `VecDeque`; if the stack is shallower than
`depth + 1` push the current group to the front, if deeper pop one entry
(`pop_front` on an empty deque is a no-op returning `None`). -/
def psSet (groups : List GroupValues) (stack : List GroupValues) (p : SectorProps) :
    Except IsoPanic (List GroupValues) :=
  if stack.length = p.depth + 1 then .ok stack
  else if stack.length < p.depth + 1 then
    match groupsGet groups p.groupNo with
    | .ok g => .ok (g :: stack)
    | .error e => .error e
  else .ok stack.tail

/-- `ParentDirectoryStack::get` (src/lib.rs:326-332): the front entry when
the stack holds a single group, otherwise the entry at position 1 with
`expect("empty depth stack")`. -/
def psGet (stack : List GroupValues) : Except IsoPanic GroupValues :=
  if stack.length = 1 then
    match stack.head? with
    | some g => .ok g
    | none => .error .emptyDepthStack
  else
    match stack.get? 1 with
    | some g => .ok g
    | none => .error .emptyDepthStack

/-- The `loop` of the `Directory` arm of `set_locations`
(src/lib.rs:372-379): starting from counter `cnt`, repeatedly increment
and fetch `groups.get(base + cnt)` until a group of the target depth is
found; a failed fetch is the `expect("invalid block number")` panic.  The
counter grows strictly, so `groups.length + 1` fuel always suffices. -/
def findNextGo (groups : List GroupValues) (base target : Nat) :
    Nat → Nat → Except IsoPanic (GroupValues × Nat)
  | 0, _ => .error .invalidBlock
  | fuel + 1, cnt =>
    let c := cnt + 1
    match groups.get? (base + c) with
    | none => .error .invalidBlock
    | some gv => if gv.depth = target then .ok (gv, c) else findNextGo groups base target fuel c

/-- `set_location` / `set_data_length` on a record (src/core.rs:446-463):
both values are stored through `as u32` casts. -/
def setRec (e : DirEntry) (loc dl : Nat) : DirEntry :=
  { e with record := { e.record with loc := loc % 4294967296, dataLen := dl % 4294967296 } }

/-- The per-record body of the `set_locations` loop (src/lib.rs:353-396).
`cs` is the `count_stack` array contents as a function; any access at an
index `≥ 128` is the out-of-bounds panic.  Returns the updated record, the
updated `count_stack` and the extended `path_group`. -/
def setLocRecord (startLoc dcount : Nat) (groups : List GroupValues)
    (stack : List GroupValues) (props : SectorProps) (cs : Nat → Nat)
    (pg : List (List Char × Nat)) (e : DirEntry) :
    Except IsoPanic (DirEntry × (Nat → Nat) × List (List Char × Nat)) :=
  match e.entry with
  | .cur =>
    match groupsGet groups props.groupNo with
    | .ok g => .ok (setRec e (startLoc + g.index) (g.count * 2048), cs, pg)
    | .error e1 => .error e1
  | .par =>
    match psGet stack with
    | .ok g => .ok (setRec e (startLoc + g.index) (g.count * 2048), cs, pg)
    | .error e1 => .error e1
  | .dir name =>
    if props.groupNo < 128 then
      match findNextGo groups props.groupNo (props.depth + 1)
        (groups.length + 1) (cs props.groupNo) with
      | .ok r =>
        .ok (setRec e (startLoc + r.1.index) (r.1.count * 2048),
          fun i => if i = props.groupNo then r.2 else cs i,
          pg ++ [(name, startLoc + r.1.index)])
      | .error e1 => .error e1
    else .error .countStackOOB
  | .file _ =>
    .ok ({ e with record :=
            { e.record with loc := (startLoc + dcount + e.record.loc) % 4294967296 } },
         cs, pg)

/-- The record loop over one sector (src/lib.rs:353-397). -/
def setLocSector (startLoc dcount : Nat) (groups : List GroupValues)
    (stack : List GroupValues) (props : SectorProps) :
    List DirEntry → (Nat → Nat) → List DirEntry → List (List Char × Nat) →
    Except IsoPanic (List DirEntry × (Nat → Nat) × List (List Char × Nat))
  | [], cs, out, pg => .ok (out, cs, pg)
  | e :: rest, cs, out, pg =>
    match setLocRecord startLoc dcount groups stack props cs pg e with
    | .ok r => setLocSector startLoc dcount groups stack props rest r.2.1 (out ++ [r.1]) r.2.2
    | .error e1 => .error e1

/-- The sector loop of `set_locations` (src/lib.rs:348-400): set the parent
stack, resolve every record, and push the sector's `path_group`. -/
def setLocGo (startLoc dcount : Nat) (groups : List GroupValues) :
    List DirSector → List GroupValues → (Nat → Nat) →
    List (List (List Char × Nat)) → List DirSector →
    Except IsoPanic (List (List (List Char × Nat)) × List DirSector)
  | [], _, _, pgs, out => .ok (pgs, out)
  | (sector, props) :: rest, stack, cs, pgs, out =>
    match psSet groups stack props with
    | .ok stack' =>
      match setLocSector startLoc dcount groups stack' props sector cs [] [] with
      | .ok r =>
        setLocGo startLoc dcount groups rest stack' r.2.1 (pgs ++ [r.2.2])
          (out ++ [(r.1, props)])
      | .error e1 => .error e1
    | .error e1 => .error e1

/-- `set_locations` (src/lib.rs:335-403): `dirs_sectors_count` is captured
before the loop, the `Groups` index is built once, the parent stack starts
empty and `count_stack` all-zero.  Returns the `path_groups` and the
sectors with resolved locations. -/
def setLocations (startLoc : Nat) (sectors : List DirSector) :
    Except IsoPanic (List (List (List Char × Nat)) × List DirSector) :=
  setLocGo startLoc sectors.length (groupsNew sectors) sectors [] (fun _ => 0) [] []

/- ## Path table (src/core.rs, `IsoPathTable`) -/

/-- `IsoPathTableEntry` with its header (src/core.rs:690-720): the stored
`length` byte (`directory_id.len() as u8`), the `u32` extent location, the
`u16` parent directory number, and the identifier. -/
structure PTEntry where
  lengthByte : Nat
  loc : Nat
  parent : Nat
  id : List Char
deriving DecidableEq, Repr

/-- `IsoPathTableEntry::new` (src/core.rs:706-720), with the
`as u8` / `as u32` / `as u16` casts. -/
def ptEntryNew (loc parent : Nat) (id : List Char) : PTEntry :=
  { lengthByte := id.length % 256
    loc := loc % 4294967296
    parent := parent % 65536
    id := id }

/-- `IsoPathTable` (src/core.rs:723-727). -/
inductive IsoPathTable where
  | lTable (es : List PTEntry)
  | mTable (es : List PTEntry)
deriving DecidableEq, Repr

/-- The per-entry endianness swap of `convert_to_m_table`
(src/core.rs:824-828). -/
def swapPTEntry (e : PTEntry) : PTEntry :=
  { e with loc := bswap32 e.loc, parent := bswap16 e.parent }

/-- `IsoPathTable::convert_to_m_table` (src/core.rs:821-835). -/
def convertToMTable : IsoPathTable → IsoPathTable
  | .lTable es => .mTable (es.map swapPTEntry)
  | .mTable es => .mTable es

/-- On-wire bytes of one path-table entry as produced by
`IsoPathTable::as_vec` (src/core.rs:766-789): the packed 8-byte header
(length, extended-attribute length 0, `u32` location, `u16` parent, both
in the host's little-endian layout), the identifier bytes, and one pad
byte iff the stored length byte is odd. -/
def ptEntryBytes (e : PTEntry) : List Nat :=
  [e.lengthByte, 0] ++ le4 e.loc ++ le2 e.parent ++ nameBytes e.id
    ++ (if e.lengthByte % 2 = 1 then [0] else [])

/-- `IsoPathTable::as_vec` (src/core.rs:766-789). -/
def ptAsVec (t : IsoPathTable) : List Nat :=
  ((match t with
    | .lTable es => es
    | .mTable es => es).map ptEntryBytes).flatten

/-- The first loop of `new_l_table` (src/core.rs:797-802): one entry per
first-level folder with parent 1, building `folder_map` from folder to its
1-based path-table index. -/
def newLTableFirst :
    List (List Char × Nat) → List PTEntry → List ((List Char × Nat) × Nat) → Nat →
    List PTEntry × List ((List Char × Nat) × Nat)
  | [], t, fm, _ => (t, fm)
  | folder :: rest, t, fm, idx =>
    newLTableFirst rest (t ++ [ptEntryNew folder.2 1 folder.1]) (fm ++ [(folder, idx + 1)]) (idx + 1)

/-- The second loop of `new_l_table` (src/core.rs:805-816): the `i`-th
element of the remaining `path_groups` (sector position `i + 1`) is paired
with `folder_map.get(i)`; when no such first-level folder exists the whole
group of subfolders is silently dropped. -/
def newLTableRest :
    List (List (List Char × Nat)) → List ((List Char × Nat) × Nat) → Nat → List PTEntry →
    List PTEntry
  | [], _, _, t => t
  | subs :: rest, fm, i, t =>
    match fm.get? i with
    | some p => newLTableRest rest fm (i + 1)
        (t ++ subs.map fun sub => ptEntryNew sub.2 p.2 sub.1)
    | none => newLTableRest rest fm (i + 1) t

/-- `IsoPathTable::new_l_table` (src/core.rs:791-819): the root entry is
hard-coded as location 23, parent 1, identifier `"\0"`; `&source[0]`
panics on an empty slice, surfaced as `none`. -/
def newLTable (source : List (List (List Char × Nat))) : Option (List PTEntry) :=
  match source with
  | [] => none
  | first :: rest =>
    some (newLTableRest rest
      (newLTableFirst first [ptEntryNew 23 1 [Char.ofNat 0]] [] 1).2 0
      (newLTableFirst first [ptEntryNew 23 1 [Char.ofNat 0]] [] 1).1)

/- ## The serializer (src/lib.rs, `IsoFileWriter::close`) -/

/-- The byte size of the packed `IsoHeaderRaw` struct (src/core.rs:104-140),
written field by field; the sum is 2048, one full sector. -/
def isoHeaderRawSize : Nat :=
  1 + 5 + 1 + 1 + 32 + 32 + 8 + 8 + 32 + 4 + 4 + 4 + 8 + 4 + 4 + 4 + 4 + 34 +
    128 + 128 + 128 + 128 + 37 + 37 + 37 + 17 + 17 + 17 + 17 + 1 + 1 + 512 + 653

/-- The bytes `close` emits for one directory sector (src/lib.rs:554-564):
the records back to back followed by `2048 - written` zero bytes; when the
records exceed 2048 bytes the `size -= entry.write()` subtraction
underflows, a panic. -/
def dirSectorWriteLen (sector : List DirEntry) : Except IsoPanic Nat :=
  let used := (sector.map actualWriteLen).sum
  if used ≤ 2048 then .ok 2048 else .error .sectorOverflow

/-- Total bytes of the directory-sector region written by `close`. -/
def dirsWriteLen : List DirSector → Except IsoPanic Nat
  | [] => .ok 0
  | (s, _) :: rest =>
    match dirSectorWriteLen s with
    | .ok w =>
      match dirsWriteLen rest with
      | .ok r => .ok (w + r)
      | .error e1 => .error e1
    | .error e1 => .error e1

/-- All staged files of a writer, as `close` sees them. -/
def stagedOf (raw : List RawFile) : List FileEnt :=
  raw.map stage

/-- The pass-1 plan `close` computes (src/lib.rs:459-472). -/
def planOf (now : Ts) (raw : List RawFile) : BSState :=
  buildSectorsTop now (stagedOf raw)

/-- `dirs_sectors.len()`: the number of directory sectors `D`. -/
def dirSectorCount (now : Ts) (raw : List RawFile) : Nat :=
  (planOf now raw).dirs.length

/-- `files_sectors.len()`: the number of file-extent sectors `S`. -/
def fileSectorCount (now : Ts) (raw : List RawFile) : Nat :=
  (planOf now raw).chunks.length

/-- Total byte length of the image `close` emits (src/lib.rs:459-577):
the 0x8000-byte boot area, the PVD, the terminator (both
`IsoHeaderRaw`-sized), the 0x800-byte reserved sector, two 2-sector
path-table buffers guarded by the `assert!`s, the directory sectors and
the 2048-byte file sectors.  Every panic of the pipeline is propagated. -/
def closeTotalLen (now : Ts) (raw : List RawFile) : Except IsoPanic Nat :=
  match setLocations 23 (planOf now raw).dirs with
  | .error e1 => .error e1
  | .ok r =>
    match newLTable r.1 with
    | none => .error .emptyPathGroups
    | some lt =>
      if (ptAsVec (.lTable lt)).length ≤ 2048 * 2 then
        if (ptAsVec (convertToMTable (.lTable lt))).length ≤ 2048 * 2 then
          match dirsWriteLen r.2 with
          | .ok dLen =>
            .ok (32768 + isoHeaderRawSize + isoHeaderRawSize + 2048 +
                 2048 * 2 + 2048 * 2 + dLen + (planOf now raw).chunks.length * 2048)
          | .error e1 => .error e1
        else .error .tableTooLarge
      else .error .tableTooLarge

/-- The `volume_space_size` field `close` stores in the PVD
(src/lib.rs:499-500): `(22 + dirs_sectors.len() + files_sectors.len()) as
u32`, computed after `set_locations` (which leaves the sector count
unchanged); errors of the pipeline before that point are propagated. -/
def closeVolumeSpaceSize (now : Ts) (raw : List RawFile) : Except IsoPanic Nat :=
  match setLocations 23 (planOf now raw).dirs with
  | .ok _ =>
    .ok ((22 + (planOf now raw).dirs.length + (planOf now raw).chunks.length) % 4294967296)
  | .error e1 => .error e1

/-- The byte length of the L-path-table `close` builds, or 0 when the
pipeline fails earlier. -/
def closeLTableLen (now : Ts) (raw : List RawFile) : Nat :=
  match setLocations 23 (planOf now raw).dirs with
  | .ok r =>
    match newLTable r.1 with
    | some t => (ptAsVec (.lTable t)).length
    | none => 0
  | .error _ => 0

/-- `Except.isOk` for our pipeline results. -/
def exceptIsOk {α β : Type} : Except α β → Bool
  | .ok _ => true
  | .error _ => false

/- ## The written byte stream (directory and file regions) -/

/-- Byte `j` of a serialized directory sector (src/lib.rs:554-564): the
records are written back to back and the remainder of the 2048-byte sector
is zero-filled. -/
def sectorByteAt : List DirEntry → Nat → Nat
  | [], _ => 0
  | e :: rest, j =>
    let L := actualWriteLen e
    if j < L then (recordBytes e).getD j 0 else sectorByteAt rest (j - L)

/-- Byte `i` of the written image, for the region the reader's directory
walk and `read_file` visit: the directory sectors start at LBA 23
(`set_locations(23, ..)`, src/lib.rs:474) and the file sectors follow,
each chunk zero-padded to 2048 bytes (src/lib.rs:566-572).  The 23
descriptor sectors before them (boot area, PVD, terminator, reserved
sector, path tables) are modeled opaquely as zeros; the walk never reads
below offset `23 * 2048`. -/
def imageByteAt (dirs : List DirSector) (chunks : List (List Nat)) (i : Nat) : Nat :=
  if i < 23 * 2048 then 0
  else
    let k := (i - 23 * 2048) / 2048
    let j := (i - 23 * 2048) % 2048
    match dirs.get? k with
    | some s => sectorByteAt s.1 j
    | none => ((chunks.get? (k - dirs.length)).getD []).getD j 0

/- ## The reader (src/lib.rs `IsoFileReader`, src/core.rs `IsoDirectoryEntries`) -/

/-- A random-access byte source (the `AsyncRead + AsyncSeekExt` reader). -/
abbrev ByteSrc := Nat → Nat

/-- `read_exact` of `n` bytes at an absolute offset. -/
def readBytesAt (σ : ByteSrc) (off n : Nat) : List Nat :=
  (List.range n).map fun i => σ (off + i)

/-- The fields of `IsoDirectoryHeader` the reader consumes
(src/core.rs:409-463), parsed from the 33 bytes at `off`: `length` is byte
0, the extent location the little-endian `u32` at bytes 2..5 (the LSB half
of the pair), the data length the little-endian `u32` at bytes 10..13,
`flags` byte 25, the identifier length byte 32. -/
structure ParsedRec where
  length : Nat
  loc : Nat
  dataLen : Nat
  flags : Nat
  idLen : Nat
deriving DecidableEq, Repr

/-- `IsoDirectoryHeader::read` (src/core.rs:425-432): transmute of the 33
raw bytes, exposing the fields through the `lsb()` accessors. -/
def parseDirHeader (σ : ByteSrc) (off : Nat) : ParsedRec :=
  { length := σ off
    loc := σ (off + 2) + 256 * σ (off + 3) + 65536 * σ (off + 4) + 16777216 * σ (off + 5)
    dataLen := σ (off + 10) + 256 * σ (off + 11) + 65536 * σ (off + 12) +
      16777216 * σ (off + 13)
    flags := σ (off + 25)
    idLen := σ (off + 32) }

/-- The reader-side `IsoEntry` over raw identifier bytes. -/
inductive RIsoEntry where
  | cur
  | par
  | dir (n : List Nat)
  | file (n : List Nat)
deriving DecidableEq, Repr

/-- `str::contains` for a fixed pattern on byte lists. -/
def containsSeq (pat : List Nat) : List Nat → Bool
  | [] => pat.isPrefixOf []
  | a :: t => pat.isPrefixOf (a :: t) || containsSeq pat t

/-- `str::strip_suffix` on byte lists. -/
def stripSuffix (l pat : List Nat) : Option (List Nat) :=
  if pat.isSuffixOf l then some (l.take (l.length - pat.length)) else none

/-- `IsoEntry::from(Vec<u8>)` (src/core.rs:670-686): `"\0"` and `"\u{1}"`
are the dot entries; any identifier containing `";1"` (bytes 59, 49) is
classified as a file with the suffix stripped (`unwrap_or_default` on a
failed strip); everything else is a directory.  The directory flag bit of
the record is not consulted. -/
def rIsoEntryFrom (src : List Nat) : RIsoEntry :=
  if src == [0] then .cur
  else if src == [1] then .par
  else if containsSeq [59, 49] src then .file ((stripSuffix src [59, 49]).getD [])
  else .dir src

/-- The reader's stored directory entry (entry variant plus raw record). -/
structure REntry where
  entry : RIsoEntry
  record : ParsedRec
deriving DecidableEq, Repr

/-- The `BTreeMap<PathBuf, IsoDirectoryEntry>` of `IsoDirectoryEntries`
(src/core.rs:546), as an association list from path (list of component
byte strings) to entry; a later insert for the same key shadows an
earlier one. -/
abbrev EntMap := List (List (List Nat) × REntry)

/-- `BTreeMap::insert` (overwrite semantics via front insertion). -/
def entInsert (m : EntMap) (k : List (List Nat)) (v : REntry) : EntMap :=
  (k, v) :: m

/-- `IsoDirectoryEntries::get` (src/core.rs:624-626). -/
def entGet (m : EntMap) (k : List (List Nat)) : Option REntry :=
  (m.find? (·.1 == k)).map (·.2)

/-- `IsoDirectoryEntries::read` (src/core.rs:549-622) with recursion fuel:
seek to `offset`, parse a record header; stop on a zero length byte; read
the identifier; advance `offset` by the record length; insert `.`/`..`
(key `base/.` resp. `base/..`, bytes 46) and file entries into the map;
for a `Directory(name)` entry recurse into its extent at
`record.location * logical_block_size` without inserting anything. -/
def entriesRead (σ : ByteSrc) (lbs : Nat) :
    Nat → List (List Nat) → Nat → EntMap → EntMap
  | 0, _, _, acc => acc
  | fuel + 1, base, offset, acc =>
    if (parseDirHeader σ offset).length = 0 then acc
    else
      match rIsoEntryFrom (readBytesAt σ (offset + 33) (parseDirHeader σ offset).idLen) with
      | .cur =>
        entriesRead σ lbs fuel base (offset + (parseDirHeader σ offset).length)
          (entInsert acc (base ++ [[46]]) ⟨.cur, parseDirHeader σ offset⟩)
      | .par =>
        entriesRead σ lbs fuel base (offset + (parseDirHeader σ offset).length)
          (entInsert acc (base ++ [[46, 46]]) ⟨.par, parseDirHeader σ offset⟩)
      | .file t =>
        entriesRead σ lbs fuel base (offset + (parseDirHeader σ offset).length)
          (entInsert acc (base ++ [t]) ⟨.file t, parseDirHeader σ offset⟩)
      | .dir t =>
        entriesRead σ lbs fuel base (offset + (parseDirHeader σ offset).length)
          (entriesRead σ lbs fuel (base ++ [t]) ((parseDirHeader σ offset).loc * lbs) acc)

/-- The outcome of `IsoFileReader::read_file`: file bytes, an
`IsoFileError`, or the `unreachable!()` panic of the `Directory` arm
(src/lib.rs:73). -/
inductive ReadFileResult where
  | ok (bytes : List Nat)
  | err (e : IsoErrKind)
  | panicUnreachable
deriving DecidableEq, Repr

/-- `IsoFileReader::read_file` (src/lib.rs:68-91): look the path up in the
entries map; `FileNotFound` when absent; category errors for the dot
entries; `unreachable!()` for a directory entry; otherwise seek to
`location * logical_block_size` and read exactly `data_length` bytes. -/
def readFileR (σ : ByteSrc) (lbs : Nat) (m : EntMap) (p : List (List Nat)) :
    ReadFileResult :=
  match entGet m p with
  | none => .err .FileNotFound
  | some v =>
    match v.entry with
    | .cur => .err .EntryCurrentDirectory
    | .par => .err .EntryParentDirectory
    | .dir _ => .panicUnreachable
    | .file _ => .ok (readBytesAt σ (v.record.loc * lbs) v.record.dataLen)

/-- The behaviour C5's amended claim describes, as a function of the map:
`FileNotFound` exactly for absent paths — which includes every directory
path, since the reader's walk never inserts `Directory` entries — the two
category errors for dot entries, and the file bytes otherwise; the
directory branch is stated as `FileNotFound` because a directory value
never occurs in a map the walk builds. -/
def readFileSpec (σ : ByteSrc) (lbs : Nat) (m : EntMap) (p : List (List Nat)) :
    ReadFileResult :=
  match entGet m p with
  | none => .err .FileNotFound
  | some v =>
    match v.entry with
    | .cur => .err .EntryCurrentDirectory
    | .par => .err .EntryParentDirectory
    | .dir _ => .err .FileNotFound
    | .file _ => .ok (readBytesAt σ (v.record.loc * lbs) v.record.dataLen)

/-- No entry of the map is a `Directory` entry. -/
def mapNoDir (m : EntMap) : Bool :=
  m.all fun kv =>
    match kv.2.entry with
    | .dir _ => false
    | _ => true

/- ## Concrete inputs used by the claim theorems -/

/-- A fixed timestamp standing in for `Utc::now()`; the planner's layout
and the reader's classification are independent of its value. -/
def ts0 : Ts := ⟨2020, 1, 1, 0, 0, 0⟩

/-- Scenario S1: the single file `/HELLO.TXT` with 13 content bytes. -/
def helloRaw : List RawFile :=
  [⟨"/HELLO.TXT", [72, 101, 108, 108, 111, 44, 32, 87, 111, 114, 108, 100, 33], ts0⟩]

/-- Scenario S3: the single file `/A/B/C/D`. -/
def s3Raw : List RawFile := [⟨"/A/B/C/D", [120], ts0⟩]

/-- The L-path-table the pipeline produces for scenario S3. -/
def s3Table : Option (List PTEntry) :=
  match setLocations 23 (planOf ts0 s3Raw).dirs with
  | .ok r => newLTable r.1
  | .error _ => none

/-- Two two-level trees: `/A/B/F1` and `/C/D/F2`; directory `/C/D` is the
first directory entered after returning from the deeper subtree `/A/B`. -/
def c3Raw : List RawFile := [⟨"/A/B/F1", [49], ts0⟩, ⟨"/C/D/F2", [50], ts0⟩]

/-- The located directory sectors of the `c3Raw` image. -/
def c3Dirs : Option (List DirSector) :=
  match setLocations 23 (planOf ts0 c3Raw).dirs with
  | .ok r => some r.2
  | .error _ => none

/-- Record `eidx` of sector `sidx` of a located sector list. -/
def sectorEntry (dirs : Option (List DirSector)) (sidx eidx : Nat) : Option DirEntry := do
  let d ← dirs
  let s ← d.get? sidx
  s.1.get? eidx

/-- A single staged file whose directory name contains `";1"` — all
a-characters (src/lib.rs:430-436 keeps `;`). -/
def c1Raw : List RawFile := [⟨"/A;1/B", [88], ts0⟩]

/-- A single staged file inside the directory `/DIR`. -/
def c5Raw : List RawFile := [⟨"/DIR/F", [88], ts0⟩]

/-- The image bytes `close` emits for the given staged files (directory
and file regions; `none` of the pipeline is impossible for these inputs
and maps to the all-zero source). -/
def writtenImage (now : Ts) (raw : List RawFile) : ByteSrc := fun i =>
  match setLocations 23 (planOf now raw).dirs with
  | .ok r => imageByteAt r.2 (planOf now raw).chunks i
  | .error _ => 0

/-- The entries map `IsoFileReader::read` builds for a written image: the
PVD `close` writes stores root extent LBA 23 and logical block size 2048
(src/lib.rs:499-516), so the walk starts at offset `23 * 2048`. -/
def closeEntriesMap (now : Ts) (raw : List RawFile) (fuel : Nat) : EntMap :=
  entriesRead (writtenImage now raw) 2048 fuel [] (23 * 2048) []

/-- Does some located directory sector contain a `Directory` record with
the given name? -/
def hasDirRecord (dirs : Option (List DirSector)) (name : List Char) : Bool :=
  match dirs with
  | none => false
  | some d => d.any fun s => s.1.any fun e => e.entry == IsoEntry.dir name

/-- The located directory sectors of a written image. -/
def writtenDirs (now : Ts) (raw : List RawFile) : Option (List DirSector) :=
  match setLocations 23 (planOf now raw).dirs with
  | .ok r => some r.2
  | .error _ => none

/-- Eight staged root files whose (identical) 220-character name drives the
`u8` record-length arithmetic of `IsoDirectoryEntry::new` into overflow. -/
def c7Raw : List RawFile :=
  List.replicate 8 ⟨String.mk ('/' :: List.replicate 220 'A'), [1], ts0⟩

/-- The actual serialized byte size of a sector's records. -/
def sectorActualSize (s : List DirEntry) : Nat :=
  (s.map actualWriteLen).sum

/-- A single staged file nested 129 directories deep: directory group
numbers run 0..129, so group 128 (which contains a subdirectory record)
indexes `count_stack` out of bounds. -/
def chainFiles : List FileEnt :=
  [⟨List.replicate 129 ['D'] ++ [['F']], [120], ts0⟩]

/- ## Predicates used by the theorems -/

/-- Every component of every staged path has at most 219 characters.  This
keeps the `u8` record-length arithmetic of `IsoDirectoryEntry::new` from
overflowing (a file identifier adds the two `";1"` bytes, and
`33 + id_len + 1` must stay below 256). -/
def componentsBounded (files : List FileEnt) : Bool :=
  files.all fun f => f.path.all fun c => decide (c.length ≤ 219)

/-- Well-packed located sectors: the stored record lengths of each sector
sum to at most 2048, and each record's stored length equals its serialized
byte count. -/
def sectorsOk (l : List DirSector) : Prop :=
  ∀ s ∈ l, ((s.1.map (·.record.length)).sum ≤ 2048) ∧
    ∀ e ∈ s.1, actualWriteLen e = e.record.length

/-- The loop invariant of `build_dirs`: the running size equals the sum of
the current sector's record lengths, that sum is at most 2048, serialized
sizes agree with stored lengths, and every finished sector is well
packed. -/
def bdInv (st : BDState) : Prop :=
  st.size = (st.sector.map (·.record.length)).sum ∧ st.size ≤ 2048 ∧
    (∀ e ∈ st.sector, actualWriteLen e = e.record.length) ∧ sectorsOk st.sectors

/-- All path-table fields fit the on-disk integer widths. -/
def ptInRange (es : List PTEntry) : Bool :=
  es.all fun e => decide (e.loc < 4294967296) && decide (e.parent < 65536)

deriving instance DecidableEq for Except

/- ## Helper lemmas: byte encodings -/

theorem land254 : ∀ x, x < 256 → x &&& 254 = 2 * (x / 2) := by decide

theorem nameBytes_length (n : List Char) : (nameBytes n).length = n.length := by
  simp [nameBytes]

theorem bswap32_decomp {a b c d : Nat} (ha : a < 256) (hb : b < 256) (hc : c < 256)
    (hd : d < 256) :
    bswap32 (a + 256 * b + 65536 * c + 16777216 * d)
      = d + 256 * c + 65536 * b + 16777216 * a := by
  unfold bswap32
  omega

theorem bswap16_decomp {a b : Nat} (ha : a < 256) (hb : b < 256) :
    bswap16 (a + 256 * b) = b + 256 * a := by
  unfold bswap16
  omega

theorem le4_decomp {a b c d : Nat} (ha : a < 256) (hb : b < 256) (hc : c < 256)
    (hd : d < 256) :
    le4 (a + 256 * b + 65536 * c + 16777216 * d) = [a, b, c, d] := by
  unfold le4
  simp only [List.cons.injEq, and_true]
  omega

theorem le2_decomp {a b : Nat} (ha : a < 256) (hb : b < 256) :
    le2 (a + 256 * b) = [a, b] := by
  unfold le2
  simp only [List.cons.injEq, and_true]
  omega

theorem le4_bswap32 {x : Nat} (hx : x < 4294967296) : le4 (bswap32 x) = (le4 x).reverse := by
  obtain ⟨a, b, c, d, ha, hb, hc, hd, hx'⟩ :
      ∃ a b c d, a < 256 ∧ b < 256 ∧ c < 256 ∧ d < 256 ∧
        x = a + 256 * b + 65536 * c + 16777216 * d :=
    ⟨x % 256, x / 256 % 256, x / 65536 % 256, x / 16777216 % 256,
      by omega, by omega, by omega, by omega, by omega⟩
  subst hx'
  rw [bswap32_decomp ha hb hc hd, le4_decomp hd hc hb ha, le4_decomp ha hb hc hd]
  rfl

theorem le2_bswap16 {x : Nat} (hx : x < 65536) : le2 (bswap16 x) = (le2 x).reverse := by
  obtain ⟨a, b, ha, hb, hx'⟩ : ∃ a b, a < 256 ∧ b < 256 ∧ x = a + 256 * b :=
    ⟨x % 256, x / 256, by omega, by omega, by omega⟩
  subst hx'
  rw [bswap16_decomp ha hb, le2_decomp hb ha, le2_decomp ha hb]
  rfl

/- ## Helper lemmas: record lengths -/

theorem entryNew_length {off len : Nat} {ts : Ts} {e : IsoEntry}
    (h : (entryName e).length ≤ 221) :
    (entryNew off len ts e).record.length = actualWriteLen (entryNew off len ts e) ∧
    (entryNew off len ts e).record.length ≤ 254 := by
  have hb : (nameBytes (entryName e)).length = (entryName e).length := nameBytes_length _
  simp only [entryNew, actualWriteLen, hb]
  set L := (entryName e).length with hL
  have h1 : L % 256 = L := Nat.mod_eq_of_lt (by omega)
  rw [h1]
  have h2 : (33 + L) % 256 = 33 + L := Nat.mod_eq_of_lt (by omega)
  rw [h2]
  have h3 : (33 + L + 1) % 256 = 33 + L + 1 := Nat.mod_eq_of_lt (by omega)
  rw [h3]
  rw [land254 (33 + L + 1) (by omega)]
  by_cases hab : 33 + L = 2 * ((33 + L + 1) / 2)
  · rw [bne_eq_false_iff_eq.mpr hab]
    simp only [Bool.false_eq_true, if_false]
    omega
  · rw [bne_iff_ne.mpr hab]
    simp only [if_true]
    omega

/-- The serialized record is decomposed at byte offset 28 (the start of the
volume-sequence field) for the C9 statement. -/
theorem recordBytes_decomp (e : DirEntry) :
    recordBytes e =
      ([e.record.length, 0] ++ le4 e.record.loc ++ le4 (bswap32 e.record.loc)
        ++ le4 e.record.dataLen ++ le4 (bswap32 e.record.dataLen)
        ++ [e.record.date.year, e.record.date.month, e.record.date.day,
            e.record.date.hour, e.record.date.minute, e.record.date.second,
            e.record.date.gmtOffset]
        ++ [e.record.flags, 0, 0])
      ++ ((le2 e.record.volseq ++ le2 (bswap16 e.record.volseq))
      ++ ([e.record.idLen] ++ nameBytes (entryName e.entry)
          ++ (if e.isOdd then [0] else []))) := by
  simp [recordBytes, headerBytes, List.append_assoc]

/-- C9: the claim says every serialized directory record carries a
volume-sequence field equal to 1 encoded as an LSB/MSB `u16` pair.  In
fact `IsoDirectoryEntry::new` stores `LsbMsb::new_u16(256)`
(src/core.rs:500): for every record the serializer emits, bytes 28..31 are
`[0, 1, 1, 0]` — the encoding of 256 — and not `[1, 0, 0, 1]`, the
encoding of 1 that the spec (and the root record in the PVD,
src/core.rs:97) uses. -/
theorem c9_volume_sequence_256 :
    (∀ (off len : Nat) (ts : Ts) (e : IsoEntry),
      ((recordBytes (entryNew off len ts e)).drop 28).take 4
          = le2 256 ++ le2 (bswap16 256) ∧
      (entryNew off len ts e).record.volseq = 256) ∧
    le2 256 ++ le2 (bswap16 256) = [0, 1, 1, 0] ∧
    le2 1 ++ le2 (bswap16 1) = [1, 0, 0, 1] ∧
    ([0, 1, 1, 0] : List Nat) ≠ [1, 0, 0, 1] := by
  refine ⟨fun off len ts e => ⟨?_, rfl⟩, by decide, by decide, by decide⟩
  have hv : (entryNew off len ts e).record.volseq = 256 := rfl
  rw [recordBytes_decomp, hv]
  rw [show (28 : Nat) = ([(entryNew off len ts e).record.length, 0]
      ++ le4 (entryNew off len ts e).record.loc
      ++ le4 (bswap32 (entryNew off len ts e).record.loc)
      ++ le4 (entryNew off len ts e).record.dataLen
      ++ le4 (bswap32 (entryNew off len ts e).record.dataLen)
      ++ [(entryNew off len ts e).record.date.year,
          (entryNew off len ts e).record.date.month,
          (entryNew off len ts e).record.date.day,
          (entryNew off len ts e).record.date.hour,
          (entryNew off len ts e).record.date.minute,
          (entryNew off len ts e).record.date.second,
          (entryNew off len ts e).record.date.gmtOffset]
      ++ [(entryNew off len ts e).record.flags, 0, 0]).length
    from by simp [le4], List.drop_left]
  rw [show (4 : Nat) = (le2 256 ++ le2 (bswap16 256)).length from rfl, List.take_left]

/-- C6: the claim says a staged timestamp with a year outside 1900..2155
aborts `close()` with an `InvalidDate` error.  In fact
`IsoDateTime::try_from` (src/types.rs:197-214) is total — it always
returns `Ok`, casting `(year - 1900) as u8` — so the planner's
`expect("invalid date conversion")` never fires and the year silently
wraps modulo 256: the year 2156 is encoded as year byte 0, i.e. exactly
like 1900, and an image is produced. -/
theorem c6_year_wraps :
    (∀ ts : Ts, isoDateTimeTryFrom ts = .ok (isoDateTimeOfTs ts)) ∧
    isoDateTimeTryFrom ⟨2156, 1, 1, 0, 0, 0⟩ = .ok ⟨0, 1, 1, 0, 0, 0, 0⟩ ∧
    (isoDateTimeOfTs ⟨2156, 1, 1, 0, 0, 0⟩).year = 0 ∧
    (isoDateTimeOfTs ⟨1900, 1, 1, 0, 0, 0⟩).year = 0 :=
  ⟨fun _ => rfl, by decide, by decide, by decide⟩

set_option maxHeartbeats 1000000 in
/-- C1: the claim says writing any staged set with a-character paths and
reading the image back yields a map containing every staged path.  The
staged path `/A;1/B` consists of a-characters only (`;` is in the filter,
src/lib.rs:430-436), survives staging intact, and the written image holds
a `Directory` record named `A;1`; but the reader classifies any identifier
containing `";1"` as a *file* named `A` (src/core.rs:670-686), ignoring
the record's directory flag, so it never recurses into the directory: the
entries map of the freshly written image does not contain `/A;1/B`
(bytes `[[65, 59, 49], [66]]`) and `read_file` returns `FileNotFound`
instead of the staged content. -/
theorem c1_reader_misses_staged_path :
    (stage ⟨"/A;1/B", [88], ts0⟩).path = [['A', ';', '1'], ['B']] ∧
    hasDirRecord (writtenDirs ts0 c1Raw) ['A', ';', '1'] = true ∧
    entGet (closeEntriesMap ts0 c1Raw 64) [[65, 59, 49], [66]] = none ∧
    readFileR (writtenImage ts0 c1Raw) 2048 (closeEntriesMap ts0 c1Raw 64)
      [[65, 59, 49], [66]] = .err .FileNotFound :=
  ⟨by decide, by decide, by decide, by decide⟩

set_option maxHeartbeats 1000000 in
/-- C3: the claim says every directory's `..` record points at its
parent's first LBA.  For the staged set `{/A/B/F1, /C/D/F2}` the planner
lays out sectors root(23), A(24), B(25), C(26), D(27).  Directory `/C/D`
(sector 4) is entered right after the walk returned from the deeper
subtree `/A/B`: `ParentDirectoryStack::set` (src/lib.rs:316-324) popped
down to the right length without pushing `/C`, leaving the stale group of
`/A` at position 0, so position 1 — consulted by `get` — still holds `/A`.
Its `..` record gets LBA 24 (directory `/A`) although its parent `/C`
starts at LBA 26 (as `/C`'s own `.` record and the `D` child record at
LBA 27 confirm). -/
theorem c3_wrong_parent_pointer :
    ((sectorEntry c3Dirs 4 1).map (·.entry) = some .par) ∧
    ((sectorEntry c3Dirs 4 1).map (·.record.loc) = some 24) ∧
    ((sectorEntry c3Dirs 3 2).map (·.entry) = some (.dir ['D'])) ∧
    ((sectorEntry c3Dirs 3 2).map (·.record.loc) = some 27) ∧
    ((sectorEntry c3Dirs 3 0).map (·.entry) = some .cur) ∧
    ((sectorEntry c3Dirs 3 0).map (·.record.loc) = some 26) ∧
    (24 : Nat) ≠ 26 :=
  ⟨by decide, by decide, by decide, by decide, by decide, by decide, by decide⟩

set_option maxHeartbeats 1000000 in
/-- C7: the claim says that for every staged file set each planner sector
holds at most 2048 bytes of records and no record straddles a sector
boundary.  Staging eight files whose 220-character name is within
`append_file`'s own 222-character truncation drives the `u8` arithmetic of
`IsoDirectoryEntry::new` into overflow (`33 + 222` wraps; in a debug build
this panics on Rust's overflow check): the stored record length byte
becomes 0, the planner's size counter stays at 68, and all eight 256-byte
records land in one sector whose serialized size is 2116 > 2048 bytes —
the records do straddle the 2048-byte boundary, and `close`'s zero-fill
subtraction underflows. -/
theorem c7_sector_overflow :
    (planOf ts0 c7Raw).dirs.map (fun s => sectorActualSize s.1) = [2116] ∧
    (planOf ts0 c7Raw).dirs.map (fun s => (s.1.map (·.record.length)).sum) = [68] ∧
    ¬ (2116 : Nat) ≤ 2048 ∧
    (stagedOf c7Raw).all (fun f => f.path.all fun c => decide (c.length ≤ 222)) = true ∧
    dirsWriteLen (planOf ts0 c7Raw).dirs = .error .sectorOverflow :=
  ⟨by decide, by decide, by decide, by decide, by decide⟩

set_option maxHeartbeats 1000000 in
/-- C4 counterexample: for the staged set `{/HELLO.TXT → 13 bytes}` the
image `close()` emits is 51200 bytes = 25 × 2048 (the pre-directory area
is 23 sectors: 16 boot + PVD + terminator + the reserved sector at LBA 18
+ two 2-sector path tables), while `(22 + D + S) × 2048 = 49152`: the
claimed total-length formula is off by the reserved sector. -/
theorem c4_counterexample :
    closeTotalLen ts0 helloRaw = .ok 51200 ∧
    (22 + dirSectorCount ts0 helloRaw + fileSectorCount ts0 helloRaw) * 2048 = 49152 ∧
    (51200 : Nat) ≠ 49152 :=
  ⟨by decide, by decide, by decide⟩

set_option maxHeartbeats 1000000 in
/-- C5 counterexample: the image written for `{/DIR/F → [88]}` contains the
directory record `DIR`, yet `read_file("/DIR")` on the freshly opened
image returns `FileNotFound`, not the `EntryDirectory` error the claim
requires — the reader's walk never inserts `Directory` entries into the
map (src/core.rs:607-617). -/
theorem c5_counterexample :
    hasDirRecord (writtenDirs ts0 c5Raw) ['D', 'I', 'R'] = true ∧
    readFileR (writtenImage ts0 c5Raw) 2048 (closeEntriesMap ts0 c5Raw 64)
      [[68, 73, 82]] = .err .FileNotFound ∧
    ReadFileResult.err .FileNotFound ≠ ReadFileResult.err .EntryDirectory :=
  ⟨by decide, by decide, by decide⟩

set_option maxHeartbeats 1000000 in
/-- C2 counterexample: for the staged set `{/A/B/C/D → "x"}` the claim
(and scenario S3 of the spec) require a path table with five entries in
depth order; `new_l_table` (src/core.rs:791-819) produces three — root,
`A`, `B` — because its `folder_map` only ever holds first-level folders,
so `C` is dropped when `folder_map.get(1)` misses. -/
theorem c2_counterexample :
    (s3Table.map fun t => t.map (·.id)) = some [[Char.ofNat 0], ['A'], ['B']] ∧
    (s3Table.map fun t => t.map (·.parent)) = some [1, 1, 2] ∧
    (s3Table.map List.length) = some 3 ∧
    (3 : Nat) ≠ 5 :=
  ⟨by decide, by decide, by decide, by decide⟩

/- ## Helper lemmas: the reader's map never holds Directory entries -/

theorem mapNoDir_insert (m : EntMap) (k : List (List Nat)) {v : REntry}
    (hv : (match v.entry with | RIsoEntry.dir _ => false | _ => true) = true)
    (h : mapNoDir m = true) : mapNoDir (entInsert m k v) = true := by
  simp only [mapNoDir, entInsert, List.all_cons, hv, Bool.true_and]
  exact h

theorem entriesRead_noDir (σ : ByteSrc) (lbs : Nat) :
    ∀ (fuel : Nat) (base : List (List Nat)) (off : Nat) (acc : EntMap),
      mapNoDir acc = true → mapNoDir (entriesRead σ lbs fuel base off acc) = true := by
  intro fuel
  induction fuel with
  | zero =>
    intro base off acc h
    simpa only [entriesRead] using h
  | succ n ih =>
    intro base off acc h
    rw [entriesRead]
    split
    · exact h
    · split
      · exact ih _ _ _ (mapNoDir_insert _ _ rfl h)
      · exact ih _ _ _ (mapNoDir_insert _ _ rfl h)
      · exact ih _ _ _ (mapNoDir_insert _ _ rfl h)
      · exact ih _ _ _ (ih _ _ _ h)

theorem entGet_noDir {m : EntMap} (h : mapNoDir m = true) {p : List (List Nat)} {v : REntry}
    (hv : entGet m p = some v) :
    (match v.entry with | RIsoEntry.dir _ => false | _ => true) = true := by
  unfold entGet at hv
  obtain ⟨kv, hfind, hkv⟩ := Option.map_eq_some'.mp hv
  have hmem : kv ∈ m := List.mem_of_find?_eq_some hfind
  have hall := (List.all_eq_true.mp h) kv hmem
  rw [← hkv]
  exact hall

/-- C5 (amended): for every opened image — any byte source, any walk fuel,
any starting state — the entries map the reader builds contains no
`Directory` entries, so `read_file` behaves as `readFileSpec` describes:
`FileNotFound` exactly when the path is absent (which includes every
directory path), `EntryCurrentDirectory` / `EntryParentDirectory` for dot
entries, the file's bytes otherwise; it never returns `EntryDirectory`
and the `unreachable!()` directory branch never executes. -/
theorem c5_theorem (σ : ByteSrc) (fuel lbs off : Nat) (base p : List (List Nat))
    (m : EntMap) (hm : m = entriesRead σ lbs fuel base off []) :
    mapNoDir m = true ∧
    readFileR σ lbs m p = readFileSpec σ lbs m p ∧
    readFileR σ lbs m p ≠ .panicUnreachable ∧
    readFileR σ lbs m p ≠ .err .EntryDirectory := by
  have hnd : mapNoDir m = true := hm ▸ entriesRead_noDir σ lbs fuel base off [] rfl
  have heq : readFileR σ lbs m p = readFileSpec σ lbs m p := by
    cases hget : entGet m p with
    | none => simp [readFileR, readFileSpec, hget]
    | some v =>
      obtain ⟨ve, vr⟩ := v
      cases ve with
      | dir t =>
        exfalso
        have := entGet_noDir hnd hget
        simp at this
      | cur => simp [readFileR, readFileSpec, hget]
      | par => simp [readFileR, readFileSpec, hget]
      | file t => simp [readFileR, readFileSpec, hget]
  refine ⟨hnd, heq, ?_, ?_⟩ <;> rw [heq] <;> unfold readFileSpec <;>
    cases hget : entGet m p with
    | none => simp
    | some v =>
      obtain ⟨ve, vr⟩ := v
      cases ve <;> simp

set_option maxHeartbeats 1000000 in
/-- Witness for C5: the theorem applied to the concretely written
`{/DIR/F}` image and the path `/DIR`. -/
theorem c5_theorem_witness :
    mapNoDir (closeEntriesMap ts0 c5Raw 64) = true ∧
    readFileR (writtenImage ts0 c5Raw) 2048 (closeEntriesMap ts0 c5Raw 64) [[68, 73, 82]]
      = readFileSpec (writtenImage ts0 c5Raw) 2048 (closeEntriesMap ts0 c5Raw 64)
          [[68, 73, 82]] ∧
    readFileR (writtenImage ts0 c5Raw) 2048 (closeEntriesMap ts0 c5Raw 64) [[68, 73, 82]]
      ≠ .panicUnreachable ∧
    readFileR (writtenImage ts0 c5Raw) 2048 (closeEntriesMap ts0 c5Raw 64) [[68, 73, 82]]
      ≠ .err .EntryDirectory :=
  c5_theorem (writtenImage ts0 c5Raw) 64 2048 (23 * 2048) [] [[68, 73, 82]]
    (closeEntriesMap ts0 c5Raw 64) rfl

/-- C8: for every L-path-table whose fields fit the on-disk widths,
`convert_to_m_table` yields a table with the same entries in the same
order (a per-entry map), hence the same count, identifiers and length
bytes; each entry serializes with its 4-byte extent LBA and 2-byte parent
number byte-wise reversed relative to the L-table form, all other bytes
(length byte, zero extended-attribute byte, identifier, pad) identical. -/
theorem c8_m_table (es : List PTEntry) (hr : ptInRange es = true) :
    convertToMTable (.lTable es) = .mTable (es.map swapPTEntry) ∧
    (es.map swapPTEntry).length = es.length ∧
    (es.map swapPTEntry).map (·.id) = es.map (·.id) ∧
    (es.map swapPTEntry).map (·.lengthByte) = es.map (·.lengthByte) ∧
    ((es.map swapPTEntry).map ptEntryBytes
      = es.map fun e => [e.lengthByte, 0] ++ (le4 e.loc).reverse ++ (le2 e.parent).reverse
          ++ nameBytes e.id ++ (if e.lengthByte % 2 = 1 then [0] else [])) ∧
    (es.map ptEntryBytes
      = es.map fun e => [e.lengthByte, 0] ++ le4 e.loc ++ le2 e.parent
          ++ nameBytes e.id ++ (if e.lengthByte % 2 = 1 then [0] else [])) ∧
    ptAsVec (convertToMTable (.lTable es)) = ((es.map swapPTEntry).map ptEntryBytes).flatten := by
  have hrange : ∀ e ∈ es, e.loc < 4294967296 ∧ e.parent < 65536 := by
    intro e he
    have := (List.all_eq_true.mp hr) e he
    simpa [Bool.and_eq_true, decide_eq_true_eq] using this
  refine ⟨rfl, List.length_map _ _, ?_, ?_, ?_, ?_, rfl⟩
  · simp [List.map_map, swapPTEntry, Function.comp]
  · simp [List.map_map, swapPTEntry, Function.comp]
  · rw [List.map_map]
    refine List.map_congr_left ?_
    intro e he
    obtain ⟨hl, hp⟩ := hrange e he
    simp only [Function.comp_apply, ptEntryBytes, swapPTEntry]
    rw [le4_bswap32 hl, le2_bswap16 hp]
  · refine List.map_congr_left ?_
    intro e he
    simp [ptEntryBytes]

/-- Witness for C8: the theorem applied to the two-entry table the writer
produces for a root with one first-level directory. -/
theorem c8_m_table_witness :
    ptInRange [ptEntryNew 23 1 [Char.ofNat 0], ptEntryNew 24 1 ['A']] = true ∧
    convertToMTable (.lTable [ptEntryNew 23 1 [Char.ofNat 0], ptEntryNew 24 1 ['A']])
      = .mTable ([ptEntryNew 23 1 [Char.ofNat 0], ptEntryNew 24 1 ['A']].map swapPTEntry) ∧
    ([ptEntryNew 23 1 [Char.ofNat 0], ptEntryNew 24 1 ['A']].map swapPTEntry).map
        ptEntryBytes
      = [ptEntryNew 23 1 [Char.ofNat 0], ptEntryNew 24 1 ['A']].map fun e =>
          [e.lengthByte, 0] ++ (le4 e.loc).reverse ++ (le2 e.parent).reverse
            ++ nameBytes e.id ++ (if e.lengthByte % 2 = 1 then [0] else []) :=
  ⟨by decide,
   (c8_m_table [ptEntryNew 23 1 [Char.ofNat 0], ptEntryNew 24 1 ['A']] (by decide)).1,
   (c8_m_table [ptEntryNew 23 1 [Char.ofNat 0], ptEntryNew 24 1 ['A']] (by decide)).2.2.2.2.1⟩

/- ## Helper lemmas: path-table construction -/

theorem newLTableFirst_fst :
    ∀ (folders : List (List Char × Nat)) (t : List PTEntry)
      (fm : List ((List Char × Nat) × Nat)) (idx : Nat),
      (newLTableFirst folders t fm idx).1 = t ++ folders.map fun f => ptEntryNew f.2 1 f.1 := by
  intro folders
  induction folders with
  | nil => intro t fm idx; simp [newLTableFirst]
  | cons f rest ih =>
    intro t fm idx
    rw [newLTableFirst, ih]
    simp

theorem newLTableRest_extends :
    ∀ (rest : List (List (List Char × Nat))) (fm : List ((List Char × Nat) × Nat))
      (i : Nat) (t : List PTEntry),
      ∃ extra, newLTableRest rest fm i t = t ++ extra := by
  intro rest
  induction rest with
  | nil => intro fm i t; exact ⟨[], by simp [newLTableRest]⟩
  | cons subs rrest ih =>
    intro fm i t
    rw [newLTableRest]
    cases hfm : fm.get? i with
    | some p =>
      obtain ⟨extra, hx⟩ := ih fm (i + 1) (t ++ subs.map fun sub => ptEntryNew sub.2 p.2 sub.1)
      refine ⟨subs.map (fun sub => ptEntryNew sub.2 p.2 sub.1) ++ extra, ?_⟩
      show newLTableRest rrest fm (i + 1) (t ++ subs.map fun sub => ptEntryNew sub.2 p.2 sub.1)
          = t ++ (subs.map (fun sub => ptEntryNew sub.2 p.2 sub.1) ++ extra)
      rw [hx, List.append_assoc]
    | none =>
      obtain ⟨extra, hx⟩ := ih fm (i + 1) t
      exact ⟨extra, hx⟩

set_option maxHeartbeats 1000000 in
/-- C2 (amended): every L-path-table `new_l_table` builds starts with the
root entry (identifier `"\0"`, parent 1, location 23 — the first directory
LBA) followed by one entry per first-level directory in order, each with
parent 1; deeper directories survive only while `folder_map.get(i)` hits a
first-level folder, so for the staged set `{/A/B/C/D}` the table has
exactly the three entries root, `A` (parent 1), `B` (parent 2) — not five
entries in depth order as the claim states. -/
theorem c2_amended (first : List (List Char × Nat)) (rest : List (List (List Char × Nat)))
    (t : List PTEntry) (h : newLTable (first :: rest) = some t) :
    t.take (first.length + 1)
      = ptEntryNew 23 1 [Char.ofNat 0] :: (first.map fun f => ptEntryNew f.2 1 f.1) ∧
    s3Table = some [ptEntryNew 23 1 [Char.ofNat 0], ptEntryNew 24 1 ['A'],
      ptEntryNew 25 2 ['B']] := by
  refine ⟨?_, by decide⟩
  simp only [newLTable, Option.some.injEq] at h
  subst h
  rw [newLTableFirst_fst]
  obtain ⟨extra, hx⟩ := newLTableRest_extends rest
    (newLTableFirst first [ptEntryNew 23 1 [Char.ofNat 0]] [] 1).2 0
    ([ptEntryNew 23 1 [Char.ofNat 0]] ++ first.map fun f => ptEntryNew f.2 1 f.1)
  rw [hx]
  rw [show first.length + 1
      = ([ptEntryNew 23 1 [Char.ofNat 0]] ++ first.map fun f => ptEntryNew f.2 1 f.1).length
    from by simp [Nat.add_comm], List.take_left]
  simp

set_option maxHeartbeats 1000000 in
/-- Witness for C2: the theorem applied to the one-folder path group list
`[[("A", 24)]]`. -/
theorem c2_amended_witness :
    newLTable [[(['A'], 24)]]
      = some [ptEntryNew 23 1 [Char.ofNat 0], ptEntryNew 24 1 ['A']] ∧
    ([ptEntryNew 23 1 [Char.ofNat 0], ptEntryNew 24 1 ['A']].take ([(['A'], 24)].length + 1)
      = ptEntryNew 23 1 [Char.ofNat 0]
          :: ([(['A'], 24)].map fun f => ptEntryNew f.2 1 f.1)) ∧
    s3Table = some [ptEntryNew 23 1 [Char.ofNat 0], ptEntryNew 24 1 ['A'],
      ptEntryNew 25 2 ['B']] :=
  ⟨by decide,
   (c2_amended [(['A'], 24)] [] [ptEntryNew 23 1 [Char.ofNat 0], ptEntryNew 24 1 ['A']]
     (by decide)).1,
   (c2_amended [(['A'], 24)] [] [ptEntryNew 23 1 [Char.ofNat 0], ptEntryNew 24 1 ['A']]
     (by decide)).2⟩

/- ## Helper lemmas: group numbers are assigned consecutively -/

theorem bdPush_sectors {g d : Nat} {fd : DirEntry} {st : BDState}
    (h : ∀ s ∈ st.sectors, s.2 = SectorProps.mk g d) :
    ∀ s ∈ (bdPush g d fd st).sectors, s.2 = SectorProps.mk g d := by
  unfold bdPush
  split
  · intro s hs
    simp only [List.mem_append, List.mem_singleton] at hs
    rcases hs with hs | hs
    · exact h s hs
    · rw [hs]
  · exact h

theorem bdFiles_sectors (g d : Nat) :
    ∀ (entries : List FileEnt) (st : BDState),
      (∀ s ∈ st.sectors, s.2 = SectorProps.mk g d) →
      ∀ s ∈ (bdFiles g d entries st).sectors, s.2 = SectorProps.mk g d := by
  intro entries
  induction entries with
  | nil => intro st h; simpa [bdFiles] using h
  | cons e rest ih =>
    intro st h
    rw [bdFiles]
    split
    · exact ih _ (bdPush_sectors h)
    · exact ih _ h

theorem bdFolders_sectors (now : Ts) (g d : Nat) :
    ∀ (entries : List FileEnt) (folders : List (List Char)) (st : BDState),
      (∀ s ∈ st.sectors, s.2 = SectorProps.mk g d) →
      ∀ s ∈ (bdFolders now g d entries folders st).1.sectors, s.2 = SectorProps.mk g d := by
  intro entries
  induction entries with
  | nil => intro folders st h; simpa [bdFolders] using h
  | cons e rest ih =>
    intro folders st h
    rw [bdFolders]
    split
    · split
      · exact ih _ _ h
      · exact ih _ _ (bdPush_sectors h)
    · exact ih _ _ h

theorem buildDirs_sectors (now : Ts) (fe : List FileEnt) (ch : List (List Nat)) (g d : Nat) :
    ∀ s ∈ (buildDirs now fe ch g d).1, s.2 = SectorProps.mk g d := by
  unfold buildDirs
  intro s hs
  simp only [List.mem_append, List.mem_singleton] at hs
  rcases hs with hs | hs
  · exact bdFolders_sectors now g d fe [] (bdFiles g d fe _)
      (bdFiles_sectors g d fe _ (by simp)) s hs
  · rw [hs]

theorem buildSectorsGo_groups (now : Ts) (files : List FileEnt) :
    ∀ (fuel : Nat) (base : List (List Char)) (depth : Nat) (st : BSState),
      (∀ s ∈ st.dirs, s.2.groupNo < st.groupNo) →
      (∀ s ∈ (buildSectorsGo now files fuel base depth st).dirs,
        s.2.groupNo < (buildSectorsGo now files fuel base depth st).groupNo) ∧
      st.groupNo ≤ (buildSectorsGo now files fuel base depth st).groupNo := by
  intro fuel
  induction fuel with
  | zero =>
    intro base depth st h
    rw [buildSectorsGo]
    exact ⟨h, Nat.le_refl _⟩
  | succ n ih =>
    intro base depth st h
    rw [buildSectorsGo]
    have h1 : ∀ s ∈ (BSState.mk
        (st.dirs ++ (buildDirs now (stripFilter files base) st.chunks st.groupNo depth).1)
        (buildDirs now (stripFilter files base) st.chunks st.groupNo depth).2.2
        (st.groupNo + 1)).dirs,
        s.2.groupNo < (BSState.mk
        (st.dirs ++ (buildDirs now (stripFilter files base) st.chunks st.groupNo depth).1)
        (buildDirs now (stripFilter files base) st.chunks st.groupNo depth).2.2
        (st.groupNo + 1)).groupNo := by
      intro s hs
      simp only [List.mem_append] at hs
      rcases hs with hs | hs
      · exact Nat.lt_succ_of_lt (h s hs)
      · rw [buildDirs_sectors now (stripFilter files base) st.chunks st.groupNo depth s hs]
        exact Nat.lt_succ_self _
    have aux : ∀ (fl : List (List Char)) (b : List (List Char)) (dep : Nat) (stx : BSState),
        (∀ s ∈ stx.dirs, s.2.groupNo < stx.groupNo) →
        (∀ s ∈ (fl.foldl (fun acc folder =>
            buildSectorsGo now files n (b ++ [folder]) dep acc) stx).dirs,
          s.2.groupNo < (fl.foldl (fun acc folder =>
            buildSectorsGo now files n (b ++ [folder]) dep acc) stx).groupNo) ∧
        stx.groupNo ≤ (fl.foldl (fun acc folder =>
            buildSectorsGo now files n (b ++ [folder]) dep acc) stx).groupNo := by
      intro fl
      induction fl with
      | nil => intro b dep stx hstx; exact ⟨hstx, Nat.le_refl _⟩
      | cons f fs ihf =>
        intro b dep stx hstx
        rw [List.foldl_cons]
        have h2 := ih (b ++ [f]) dep stx hstx
        have h3 := ihf b dep _ h2.1
        exact ⟨h3.1, Nat.le_trans h2.2 h3.2⟩
    have h4 := aux (buildDirs now (stripFilter files base) st.chunks st.groupNo depth).2.1
      base (depth + 1) _ h1
    exact ⟨h4.1, Nat.le_trans (Nat.le_succ _) h4.2⟩

/- ## Helper lemmas: the only count-stack panic site -/

theorem groupsGet_error {groups : List GroupValues} {i : Nat} {e : IsoPanic}
    (h : groupsGet groups i = .error e) : e = .invalidBlock := by
  unfold groupsGet at h
  cases hg : groups.get? i <;> rw [hg] at h <;> simp_all

theorem psGet_error {stack : List GroupValues} {e : IsoPanic}
    (h : psGet stack = .error e) : e = .emptyDepthStack := by
  unfold psGet at h
  split at h
  · cases hh : stack.head? <;> rw [hh] at h <;> simp_all
  · cases hh : stack.get? 1 <;> rw [hh] at h <;> simp_all

theorem psSet_error {groups stack : List GroupValues} {p : SectorProps} {e : IsoPanic}
    (h : psSet groups stack p = .error e) : e = .invalidBlock := by
  unfold psSet at h
  split at h
  · simp_all
  · split at h
    · split at h
      · simp_all
      · rename_i e1 hge
        simp only [Except.error.injEq] at h
        subst h
        exact groupsGet_error hge
    · simp_all

theorem findNextGo_error {groups : List GroupValues} {base target : Nat} :
    ∀ {fuel cnt : Nat} {e : IsoPanic},
      findNextGo groups base target fuel cnt = .error e → e = .invalidBlock := by
  intro fuel
  induction fuel with
  | zero => intro cnt e h; rw [findNextGo] at h; simp_all
  | succ n ih =>
    intro cnt e h
    rw [findNextGo] at h
    cases hg : groups.get? (base + (cnt + 1)) <;> rw [hg] at h
    · simp_all
    · rename_i gv
      have h' : (if gv.depth = target then Except.ok (gv, cnt + 1)
          else findNextGo groups base target n (cnt + 1)) = Except.error e := h
      by_cases hd : gv.depth = target
      · rw [if_pos hd] at h'; simp_all
      · rw [if_neg hd] at h'; exact ih h'

theorem setLocRecord_no_oob (startLoc dcount : Nat) (groups stack : List GroupValues)
    (props : SectorProps) (cs : Nat → Nat) (pg : List (List Char × Nat)) (e : DirEntry)
    (hg : props.groupNo < 128) :
    setLocRecord startLoc dcount groups stack props cs pg e ≠ .error .countStackOOB := by
  unfold setLocRecord
  split
  · cases hge : groupsGet groups props.groupNo with
    | ok g => simp
    | error e1 =>
      have h2 := groupsGet_error hge
      subst h2
      simp
  · cases hge : psGet stack with
    | ok g => simp
    | error e1 =>
      have h2 := psGet_error hge
      subst h2
      simp
  · rw [if_pos hg]
    cases hge : findNextGo groups props.groupNo (props.depth + 1) (groups.length + 1)
      (cs props.groupNo) with
    | ok r => simp
    | error e1 =>
      have h2 := findNextGo_error hge
      subst h2
      simp
  · simp

theorem setLocSector_no_oob (startLoc dcount : Nat) (groups stack : List GroupValues)
    (props : SectorProps) (hg : props.groupNo < 128) :
    ∀ (entries : List DirEntry) (cs : Nat → Nat) (out : List DirEntry)
      (pg : List (List Char × Nat)),
      setLocSector startLoc dcount groups stack props entries cs out pg
        ≠ .error .countStackOOB := by
  intro entries
  induction entries with
  | nil => intro cs out pg; simp [setLocSector]
  | cons e rest ih =>
    intro cs out pg
    rw [setLocSector]
    split
    · exact ih _ _ _
    · rename_i e1 heq
      have hne := setLocRecord_no_oob startLoc dcount groups stack props cs pg e hg
      rw [heq] at hne
      simp only [ne_eq, Except.error.injEq] at hne ⊢
      exact hne

theorem setLocGo_no_oob (startLoc dcount : Nat) (groups : List GroupValues) :
    ∀ (sectors : List DirSector) (stack : List GroupValues) (cs : Nat → Nat)
      (pgs : List (List (List Char × Nat))) (out : List DirSector),
      (∀ s ∈ sectors, s.2.groupNo < 128) →
      setLocGo startLoc dcount groups sectors stack cs pgs out ≠ .error .countStackOOB := by
  intro sectors
  induction sectors with
  | nil => intro stack cs pgs out h; simp [setLocGo]
  | cons sp rest ih =>
    obtain ⟨sector, props⟩ := sp
    intro stack cs pgs out h
    have hg : props.groupNo < 128 := h (sector, props) (List.mem_cons_self _ _)
    rw [setLocGo]
    split
    · rename_i stack' hps
      split
      · rename_i r hss
        exact ih _ _ _ _ fun s hs => h s (List.mem_cons_of_mem _ hs)
      · rename_i e1 hss
        have hne := setLocSector_no_oob startLoc dcount groups stack' props hg sector cs [] []
        rw [hss] at hne
        simp only [ne_eq, Except.error.injEq] at hne ⊢
        exact hne
    · rename_i e1 hps
      have h2 := psSet_error hps
      subst h2
      simp

set_option maxHeartbeats 1000000 in
/-- C10: `set_locations` counts resolved subdirectory records in the fixed
array `[0usize; 128]` indexed by group number (src/lib.rs:343,373).  For
every staged file set whose tree has at most 128 directories the group
numbers — assigned consecutively from 0 by `build_sectors` — stay below
128, so that indexing never panics; for the concrete single file nested
129 directories deep there are 130 directory groups and group 128
contains a subdirectory record, so `set_locations` indexes `count_stack`
out of bounds and panics. -/
theorem c10_count_stack_bound :
    (∀ (now : Ts) (files : List FileEnt),
      (buildSectorsTop now files).groupNo ≤ 128 →
      setLocations 23 (buildSectorsTop now files).dirs ≠ .error .countStackOOB) ∧
    setLocations 23 (buildSectorsTop ts0 chainFiles).dirs = .error .countStackOOB := by
  constructor
  · intro now files hle
    unfold setLocations
    apply setLocGo_no_oob
    intro s hs
    have h1 := (buildSectorsGo_groups now files (maxPathLen files + 1) [] 0 ⟨[], [], 0⟩
      (by simp)).1
    exact Nat.lt_of_lt_of_le (h1 s hs) hle
  · decide

set_option maxHeartbeats 1000000 in
/-- Witness for C10: the no-panic half applied to the staged `/HELLO.TXT`
image, whose tree has a single directory group. -/
theorem c10_count_stack_witness :
    (buildSectorsTop ts0 (stagedOf helloRaw)).groupNo ≤ 128 ∧
    setLocations 23 (buildSectorsTop ts0 (stagedOf helloRaw)).dirs
      ≠ .error .countStackOOB :=
  ⟨by decide, c10_count_stack_bound.1 ts0 (stagedOf helloRaw) (by decide)⟩


theorem bdPush_inv {g d : Nat} {fd : DirEntry} {st : BDState}
    (hfd : actualWriteLen fd = fd.record.length) (hle : fd.record.length ≤ 2048)
    (h : bdInv st) : bdInv (bdPush g d fd st) := by
  obtain ⟨h1, h2, h3, h4⟩ := h
  unfold bdPush
  split
  · refine ⟨by simp, by simpa using hle, ?_, ?_⟩
    · intro e he
      simp only [List.mem_singleton] at he
      subst he
      exact hfd
    · intro s hs
      simp only [List.mem_append, List.mem_singleton] at hs
      rcases hs with hs | hs
      · exact h4 s hs
      · subst hs
        exact ⟨by rw [← h1]; exact h2, h3⟩
  · rename_i hov
    refine ⟨?_, by simpa using Nat.le_of_not_lt hov, ?_, h4⟩
    · simp [h1, List.map_append]
    · intro e he
      simp only [List.mem_append, List.mem_singleton] at he
      rcases he with he | he
      · exact h3 e he
      · subst he
        exact hfd

theorem headD_mem {l : List (List Char)} (h : l ≠ []) : l.headD [] ∈ l := by
  cases l with
  | nil => exact absurd rfl h
  | cons a t => exact List.mem_cons_self a t

theorem entryNew_file_ok {off len : Nat} {ts : Ts} {name : List Char}
    (h : name.length ≤ 219) :
    actualWriteLen (entryNew off len ts (.file name))
        = (entryNew off len ts (.file name)).record.length ∧
    (entryNew off len ts (.file name)).record.length ≤ 2048 := by
  have hh := @entryNew_length off len ts (IsoEntry.file name) (by simp [entryName]; omega)
  exact ⟨hh.1.symm, Nat.le_trans hh.2 (by omega)⟩

theorem entryNew_dir_ok {off len : Nat} {ts : Ts} {name : List Char}
    (h : name.length ≤ 219) :
    actualWriteLen (entryNew off len ts (.dir name))
        = (entryNew off len ts (.dir name)).record.length ∧
    (entryNew off len ts (.dir name)).record.length ≤ 2048 := by
  have hh := @entryNew_length off len ts (IsoEntry.dir name) (by simp [entryName]; omega)
  exact ⟨hh.1.symm, Nat.le_trans hh.2 (by omega)⟩

theorem bdInv_chunks {st : BDState} {c : List (List Nat)} (h : bdInv st) :
    bdInv { st with chunks := c } := by
  obtain ⟨h1, h2, h3, h4⟩ := h
  exact ⟨h1, h2, h3, h4⟩

theorem bdFiles_inv (g d : Nat) :
    ∀ (entries : List FileEnt) (st : BDState),
      (∀ f ∈ entries, ∀ c ∈ f.path, c.length ≤ 219) → bdInv st →
      bdInv (bdFiles g d entries st) := by
  intro entries
  induction entries with
  | nil => intro st hb h; simpa [bdFiles] using h
  | cons e rest ih =>
    intro st hb h
    rw [bdFiles]
    split
    · rename_i hlen
      refine ih _ (fun f hf => hb f (List.mem_cons_of_mem _ hf)) (bdInv_chunks ?_)
      have hmem : e.path.headD [] ∈ e.path := headD_mem (by
        intro hnil
        rw [hnil] at hlen
        simp at hlen)
      have hname := hb e (List.mem_cons_self _ _) _ hmem
      have hok := @entryNew_file_ok st.chunks.length e.content.length e.ts _ hname
      exact bdPush_inv hok.1 hok.2 h
    · exact ih _ (fun f hf => hb f (List.mem_cons_of_mem _ hf)) h

theorem bdFolders_inv (now : Ts) (g d : Nat) :
    ∀ (entries : List FileEnt) (folders : List (List Char)) (st : BDState),
      (∀ f ∈ entries, ∀ c ∈ f.path, c.length ≤ 219) → bdInv st →
      bdInv (bdFolders now g d entries folders st).1 := by
  intro entries
  induction entries with
  | nil => intro folders st hb h; simpa [bdFolders] using h
  | cons e rest ih =>
    intro folders st hb h
    rw [bdFolders]
    split
    · rename_i hlen
      split
      · exact ih _ _ (fun f hf => hb f (List.mem_cons_of_mem _ hf)) h
      · refine ih _ _ (fun f hf => hb f (List.mem_cons_of_mem _ hf)) ?_
        have hmem : e.path.headD [] ∈ e.path := headD_mem (by
          intro hnil
          rw [hnil] at hlen
          simp at hlen)
        have hname := hb e (List.mem_cons_self _ _) _ hmem
        have hok := @entryNew_dir_ok 0 0 now _ hname
        exact bdPush_inv hok.1 hok.2 h
    · exact ih _ _ (fun f hf => hb f (List.mem_cons_of_mem _ hf)) h

theorem buildDirs_ok (now : Ts) (fe : List FileEnt) (ch : List (List Nat)) (g d : Nat)
    (hb : ∀ f ∈ fe, ∀ c ∈ f.path, c.length ≤ 219) :
    sectorsOk (buildDirs now fe ch g d).1 := by
  have hcur : (entryNew 0 0 now IsoEntry.cur).record.length = 34 := rfl
  have hpar : (entryNew 0 0 now IsoEntry.par).record.length = 34 := rfl
  have hcura : actualWriteLen (entryNew 0 0 now IsoEntry.cur) = 34 := rfl
  have hpara : actualWriteLen (entryNew 0 0 now IsoEntry.par) = 34 := rfl
  have h0 : bdInv (BDState.mk [entryNew 0 0 now .cur, entryNew 0 0 now .par]
      ((entryNew 0 0 now .cur).record.length + (entryNew 0 0 now .par).record.length)
      [] ch) := by
    refine ⟨by simp, ?_, ?_, by intro s hs; simp at hs⟩
    · show (entryNew 0 0 now IsoEntry.cur).record.length
          + (entryNew 0 0 now IsoEntry.par).record.length ≤ 2048
      rw [hcur, hpar]
      omega
    intro e he
    simp only [List.mem_cons, List.not_mem_nil, or_false] at he
    rcases he with he | he <;> subst he
    · rw [hcura, hcur]
    · rw [hpara, hpar]
  have h1 := bdFiles_inv g d fe _ hb h0
  have h2 := bdFolders_inv now g d fe [] _ hb h1
  unfold buildDirs
  obtain ⟨g1, g2, g3, g4⟩ := h2
  intro s hs
  simp only [List.mem_append, List.mem_singleton] at hs
  rcases hs with hs | hs
  · exact g4 s hs
  · subst hs
    exact ⟨by rw [← g1]; exact g2, g3⟩

theorem stripFilter_bound {files : List FileEnt} {base : List (List Char)}
    (hb : ∀ f ∈ files, ∀ c ∈ f.path, c.length ≤ 219) :
    ∀ f ∈ stripFilter files base, ∀ c ∈ f.path, c.length ≤ 219 := by
  intro f hf c hc
  unfold stripFilter at hf
  rw [List.mem_filterMap] at hf
  obtain ⟨f0, hf0, hsome⟩ := hf
  by_cases hp : base.isPrefixOf f0.path
  · rw [if_pos hp] at hsome
    injection hsome with hsome
    subst hsome
    simp only at hc
    exact hb f0 hf0 c (List.mem_of_mem_drop hc)
  · rw [if_neg hp] at hsome
    cases hsome

theorem buildSectorsGo_ok (now : Ts) (files : List FileEnt)
    (hb : ∀ f ∈ files, ∀ c ∈ f.path, c.length ≤ 219) :
    ∀ (fuel : Nat) (base : List (List Char)) (depth : Nat) (st : BSState),
      sectorsOk st.dirs → sectorsOk (buildSectorsGo now files fuel base depth st).dirs := by
  intro fuel
  induction fuel with
  | zero => intro base depth st h; simpa [buildSectorsGo] using h
  | succ n ih =>
    intro base depth st h
    rw [buildSectorsGo]
    have h1 : sectorsOk (st.dirs
        ++ (buildDirs now (stripFilter files base) st.chunks st.groupNo depth).1) := by
      intro s hs
      rw [List.mem_append] at hs
      rcases hs with hs | hs
      · exact h s hs
      · exact buildDirs_ok now (stripFilter files base) st.chunks st.groupNo depth
          (stripFilter_bound hb) s hs
    have aux : ∀ (fl : List (List Char)) (b : List (List Char)) (dep : Nat) (stx : BSState),
        sectorsOk stx.dirs →
        sectorsOk ((fl.foldl (fun acc folder =>
          buildSectorsGo now files n (b ++ [folder]) dep acc) stx)).dirs := by
      intro fl
      induction fl with
      | nil => intro b dep stx hstx; exact hstx
      | cons f fs ihf =>
        intro b dep stx hstx
        rw [List.foldl_cons]
        exact ihf b dep _ (ih (b ++ [f]) dep stx hstx)
    exact aux _ base (depth + 1) _ h1

theorem setLocRecord_actual {startLoc dcount : Nat} {groups stack : List GroupValues}
    {props : SectorProps} {cs : Nat → Nat} {pg : List (List Char × Nat)} {e : DirEntry}
    {r : DirEntry × (Nat → Nat) × List (List Char × Nat)}
    (h : setLocRecord startLoc dcount groups stack props cs pg e = .ok r) :
    actualWriteLen r.1 = actualWriteLen e := by
  unfold setLocRecord at h
  split at h
  · split at h
    · injection h with h
      subst h
      rfl
    · cases h
  · split at h
    · injection h with h
      subst h
      rfl
    · cases h
  · split at h
    · split at h
      · injection h with h
        subst h
        rfl
      · cases h
    · cases h
  · injection h with h
    subst h
    rfl

theorem setLocSector_actual {startLoc dcount : Nat} {groups stack : List GroupValues}
    {props : SectorProps} :
    ∀ (entries : List DirEntry) (cs : Nat → Nat) (out : List DirEntry)
      (pg : List (List Char × Nat))
      (r : List DirEntry × (Nat → Nat) × List (List Char × Nat)),
      setLocSector startLoc dcount groups stack props entries cs out pg = .ok r →
      r.1.map actualWriteLen = out.map actualWriteLen ++ entries.map actualWriteLen := by
  intro entries
  induction entries with
  | nil =>
    intro cs out pg r h
    rw [setLocSector] at h
    injection h with h
    subst h
    simp
  | cons e rest ih =>
    intro cs out pg r h
    rw [setLocSector] at h
    split at h
    · rename_i rr heq
      have h2 := ih _ _ _ _ h
      rw [h2]
      simp only [List.map_append, List.map_cons, List.map_nil, List.append_assoc,
        List.singleton_append, List.map_cons]
      rw [setLocRecord_actual heq]
    · cases h

theorem setLocGo_shape {startLoc dcount : Nat} {groups : List GroupValues} :
    ∀ (sectors : List DirSector) (stack : List GroupValues) (cs : Nat → Nat)
      (pgs : List (List (List Char × Nat))) (out : List DirSector)
      (res : List (List (List Char × Nat)) × List DirSector),
      setLocGo startLoc dcount groups sectors stack cs pgs out = .ok res →
      res.2.map (fun s => s.1.map actualWriteLen)
          = out.map (fun s => s.1.map actualWriteLen)
            ++ sectors.map (fun s => s.1.map actualWriteLen) ∧
      res.1.length = pgs.length + sectors.length := by
  intro sectors
  induction sectors with
  | nil =>
    intro stack cs pgs out res h
    rw [setLocGo] at h
    injection h with h
    subst h
    simp
  | cons sp rest ih =>
    obtain ⟨sector, props⟩ := sp
    intro stack cs pgs out res h
    rw [setLocGo] at h
    split at h
    · rename_i stack' hps
      split at h
      · rename_i r hss
        have h2 := ih _ _ _ _ _ h
        have h3 := setLocSector_actual sector cs [] [] r hss
        simp only [List.map_nil, List.nil_append] at h3
        constructor
        · rw [h2.1]
          simp only [List.map_append, List.map_cons, List.map_nil, List.append_assoc,
            List.singleton_append]
          rw [h3]
        · rw [h2.2]
          simp only [List.length_append, List.length_cons, List.length_nil]
          omega
      · cases h
    · cases h

theorem sectorsOk_actual {l : List DirSector} (h : sectorsOk l) :
    ∀ s ∈ l, (s.1.map actualWriteLen).sum ≤ 2048 := by
  intro s hs
  obtain ⟨h1, h2⟩ := h s hs
  have : s.1.map actualWriteLen = s.1.map (·.record.length) :=
    List.map_congr_left fun e he => h2 e he
  rw [this]
  exact h1

theorem dirsWriteLen_ok :
    ∀ (l : List DirSector), (∀ s ∈ l, (s.1.map actualWriteLen).sum ≤ 2048) →
      dirsWriteLen l = .ok (l.length * 2048) := by
  intro l
  induction l with
  | nil => intro h; simp [dirsWriteLen]
  | cons s rest ih =>
    intro h
    obtain ⟨sec, props⟩ := s
    rw [dirsWriteLen]
    unfold dirSectorWriteLen
    rw [if_pos (h (sec, props) (List.mem_cons_self _ _))]
    rw [ih fun s hs => h s (List.mem_cons_of_mem _ hs)]
    simp only [Except.ok.injEq, List.length_cons]
    ring

theorem ptEntryBytes_swap_length (e : PTEntry) :
    (ptEntryBytes (swapPTEntry e)).length = (ptEntryBytes e).length := by
  simp [ptEntryBytes, swapPTEntry, le4, le2, nameBytes]

theorem mLen_eq (lt : List PTEntry) :
    (ptAsVec (convertToMTable (.lTable lt))).length = (ptAsVec (.lTable lt)).length := by
  simp only [ptAsVec, convertToMTable, List.length_flatten, List.map_map]
  congr 1

theorem buildSectorsGo_dirs_mono (now : Ts) (files : List FileEnt) :
    ∀ (fuel : Nat) (base : List (List Char)) (depth : Nat) (st : BSState),
      st.dirs.length ≤ (buildSectorsGo now files fuel base depth st).dirs.length := by
  intro fuel
  induction fuel with
  | zero => intro base depth st; rw [buildSectorsGo]
  | succ n ih =>
    intro base depth st
    rw [buildSectorsGo]
    have aux : ∀ (fl : List (List Char)) (b : List (List Char)) (dep : Nat) (stx : BSState),
        stx.dirs.length ≤ ((fl.foldl (fun acc folder =>
          buildSectorsGo now files n (b ++ [folder]) dep acc) stx)).dirs.length := by
      intro fl
      induction fl with
      | nil => intro b dep stx; exact Nat.le_refl _
      | cons f fs ihf =>
        intro b dep stx
        rw [List.foldl_cons]
        exact Nat.le_trans (ih (b ++ [f]) dep stx) (ihf b dep _)
    refine Nat.le_trans ?_ (aux _ base (depth + 1) _)
    simp

theorem buildSectorsTop_ne (now : Ts) (files : List FileEnt) :
    1 ≤ (buildSectorsTop now files).dirs.length := by
  unfold buildSectorsTop
  rw [buildSectorsGo]
  have aux : ∀ (fl : List (List Char)) (b : List (List Char)) (dep : Nat) (stx : BSState),
      stx.dirs.length ≤ ((fl.foldl (fun acc folder =>
        buildSectorsGo now files (maxPathLen files) (b ++ [folder]) dep acc) stx)).dirs.length := by
    intro fl
    induction fl with
    | nil => intro b dep stx; exact Nat.le_refl _
    | cons f fs ihf =>
      intro b dep stx
      rw [List.foldl_cons]
      exact Nat.le_trans (buildSectorsGo_dirs_mono now files (maxPathLen files)
        (b ++ [f]) dep stx) (ihf b dep _)
  refine Nat.le_trans ?_ (aux _ [] 1 _)
  simp [buildDirs]

/-- C4 (amended): for every staged file set whose path components are at most
219 characters, whose L-path-table fits the two-sector buffer, and for which
set_locations succeeds, the image emitted by close() is
(23 + D + S) * 2048 bytes -- one full sector more than the claimed
(22 + D + S) * 2048 -- while the PVD volume_space_size field equals
22 + D + S as claimed (D = directory sectors, S = file-extent sectors). -/
theorem c4_amended (now : Ts) (raw : List RawFile)
    (hn : componentsBounded (stagedOf raw) = true)
    (hset : exceptIsOk (setLocations 23 (planOf now raw).dirs) = true)
    (hlt : closeLTableLen now raw ≤ 4096) :
    closeTotalLen now raw
      = .ok ((23 + dirSectorCount now raw + fileSectorCount now raw) * 2048) ∧
    closeVolumeSpaceSize now raw
      = .ok ((22 + dirSectorCount now raw + fileSectorCount now raw) % 4294967296) := by
  obtain ⟨res, hres⟩ : ∃ res, setLocations 23 (planOf now raw).dirs = .ok res := by
    cases hr : setLocations 23 (planOf now raw).dirs with
    | ok r => exact ⟨r, rfl⟩
    | error e => rw [hr] at hset; simp [exceptIsOk] at hset
  have hbp : ∀ f ∈ stagedOf raw, ∀ c ∈ f.path, c.length ≤ 219 := by
    intro f hf c hc
    have h1 := (List.all_eq_true.mp hn) f hf
    exact decide_eq_true_eq.mp ((List.all_eq_true.mp h1) c hc)
  have hok : sectorsOk (planOf now raw).dirs := by
    unfold planOf buildSectorsTop
    exact buildSectorsGo_ok now (stagedOf raw) hbp _ [] 0 ⟨[], [], 0⟩
      (by intro s hs; simp at hs)
  have hres' : setLocGo 23 (planOf now raw).dirs.length (groupsNew (planOf now raw).dirs)
      (planOf now raw).dirs [] (fun _ => 0) [] [] = .ok res := hres
  have hsh := setLocGo_shape (planOf now raw).dirs [] (fun _ => 0) [] [] res hres'
  have hlen2 : res.2.length = (planOf now raw).dirs.length := by
    have h1 := congrArg List.length hsh.1
    simpa using h1
  have hdwl : dirsWriteLen res.2 = .ok (res.2.length * 2048) := by
    apply dirsWriteLen_ok
    intro s hs
    have hmem : s.1.map actualWriteLen
        ∈ res.2.map (fun s => s.1.map actualWriteLen) := List.mem_map_of_mem _ hs
    rw [hsh.1] at hmem
    simp only [List.map_nil, List.nil_append] at hmem
    obtain ⟨s0, hs0, heq⟩ := List.mem_map.mp hmem
    rw [← heq]
    exact sectorsOk_actual hok s0 hs0
  have hpg1 : 1 ≤ res.1.length := by
    rw [hsh.2]
    simp only [List.length_nil, Nat.zero_add]
    have h9 := buildSectorsTop_ne now (stagedOf raw)
    unfold planOf
    exact h9
  obtain ⟨lt, hlt2⟩ : ∃ lt, newLTable res.1 = some lt := by
    cases hp : res.1 with
    | nil => rw [hp] at hpg1; simp at hpg1
    | cons first rest => exact ⟨_, rfl⟩
  have hl4096 : (ptAsVec (.lTable lt)).length ≤ 2048 * 2 := by
    simp only [closeLTableLen, hres, hlt2] at hlt
    omega
  have hm4096 : (ptAsVec (convertToMTable (.lTable lt))).length ≤ 2048 * 2 := by
    rw [mLen_eq]
    exact hl4096
  constructor
  · simp only [closeTotalLen, hres, hlt2, if_pos hl4096, if_pos hm4096, hdwl,
      Except.ok.injEq]
    rw [hlen2]
    have hhs : isoHeaderRawSize = 2048 := by norm_num [isoHeaderRawSize]
    rw [hhs]
    unfold dirSectorCount fileSectorCount planOf
    ring
  · simp only [closeVolumeSpaceSize, hres]
    rfl

theorem c4_amended_witness :
    closeTotalLen ts0 helloRaw
      = .ok ((23 + dirSectorCount ts0 helloRaw + fileSectorCount ts0 helloRaw) * 2048) ∧
    closeVolumeSpaceSize ts0 helloRaw
      = .ok ((22 + dirSectorCount ts0 helloRaw + fileSectorCount ts0 helloRaw) % 4294967296) :=
  c4_amended ts0 helloRaw (by decide) (by decide) (by decide)
